import Mathlib

/-!
Verification development for the MiniJava compiler front-end
(`src/tree.c`, `src/string_hash_table.c`, `include/tree.h`,
`include/symbol_table.h`, `semantic_analyzer.c`).

The C sources are shallowly embedded: the global arrays `st`, `attrarray`,
`stack` and the counters `st_top`, `attr_top`, `stack_top`, `nesting`
become an explicit state record `STState`; every C routine becomes a pure
function threading that state.  A routine that can call `exit()` returns
`Except Exit ...`, where the `Exit` value records the exit status and the
diagnostics printed up to that point.  Diagnostics issued by `error_msg`
are modelled as the list `errors` of `(error code, id)` pairs.

Machine integers are modelled as `Int`/`Nat`; none of the embedded code
paths exercise overflow.  C loops whose termination depends on data-shape
invariants (attribute chains, the `varop` resolution loop) take an explicit
fuel argument; fuel exhaustion is reported with the distinguished code
`FUEL_OUT`, which is distinct from every real exit status, so no theorem
can mistake a truncated run for a finished one.
-/

/-! ## Constants from `include/tree.h` -/

def ProgramOp : Nat := 100
def BodyOp : Nat := 101
def DeclOp : Nat := 102
def CommaOp : Nat := 103
def ArrayTypeOp : Nat := 104
def TypeIdOp : Nat := 105
def HeadOp : Nat := 113
def RArgTypeOp : Nat := 114
def VArgTypeOp : Nat := 115
def SpecOp : Nat := 119
def RoutineCallOp : Nat := 120
def VarOp : Nat := 137
def SelectOp : Nat := 138
def IndexOp : Nat := 139
def FieldOp : Nat := 140
def MethodOp : Nat := 144
def ClassDefOp : Nat := 145

def IDNode : Nat := 200
def NUMNode : Nat := 201
def CHARNode : Nat := 202
def STRINGNode : Nat := 203
def DUMMYNode : Nat := 204
def EXPRNode : Nat := 205
def INTEGERTNode : Nat := 206
def STNode : Nat := 209

/-! ## Constants from `include/symbol_table.h` -/

def STACK_SIZE : Nat := 100
def ST_SIZE : Nat := 500
def ATTR_SIZE : Nat := 2000

def STACK_OVERFLOW : Nat := 100
def REDECLARATION : Nat := 101
def ST_OVERFLOW : Nat := 102
def UNDECLARATION : Nat := 103
def ATTR_OVERFLOW : Nat := 104
def INDX_MIS : Nat := 114
def FIELD_MIS : Nat := 115
def TYPE_MIS : Nat := 121
def MULTI_MAIN : Nat := 124

def CONTINUE : Nat := 0
def ABORT : Nat := 1

def NAME_ATTR : Nat := 1
def NEST_ATTR : Nat := 2
def TREE_ATTR : Nat := 3
def PREDE_ATTR : Nat := 4
def KIND_ATTR : Nat := 5
def TYPE_ATTR : Nat := 6
def VALUE_ATTR : Nat := 7
def OFFSET_ATTR : Nat := 8
def DIMEN_ATTR : Nat := 9
def ARGNUM_ATTR : Nat := 10

def CONST : Int := 1
def VAR : Int := 2
def FUNC : Int := 4
def REF_ARG : Int := 5
def VALUE_ARG : Int := 6
def FIELD : Int := 7
def PROCE : Int := 10
def CLASS : Int := 11
def ARR : Int := 12

/-- Exit status used to flag fuel exhaustion of an embedded loop.  The C
program only ever exits with status 0 (`exit(0)` in `error_msg` and in the
lexer) or 1 (`exit(1)` in `varop`), so 999 cannot be confused with a real
termination of the program. -/
def FUEL_OUT : Nat := 999

/-! ## The syntax tree (`tree.c`)

`ILTree` is the tagged node: the shared global dummy node, leaves
(`IDNode`, `NUMNode`, `STNode`, `INTEGERTNode`, ...) carrying an `int`
payload, and `EXPRNode` internal nodes carrying an operator and two
children.  In-place child mutation (`SetLeftChild`/`SetRightChild`)
becomes functional rebuilding. -/

inductive ILTree where
  | dummyNode : ILTree
  | leaf (kind : Nat) (v : Int) : ILTree
  | expr (op : Nat) (l r : ILTree) : ILTree
deriving DecidableEq, Repr

/-- `NodeKind` accessor from `tree.c`. -/
def NodeKind : ILTree → Nat
  | .dummyNode => DUMMYNode
  | .leaf k _ => k
  | .expr _ _ _ => EXPRNode

/-- `NodeOp` from `tree.c`: returns 0 on a non-`EXPRNode`. -/
def NodeOp : ILTree → Nat
  | .expr op _ _ => op
  | _ => 0

/-- `IntVal` from `tree.c`: the payload of a leaf; the shared dummy node has
`IntVal = 0`; on an `EXPRNode` the C code prints a complaint and returns -1. -/
def IntVal : ILTree → Int
  | .dummyNode => 0
  | .leaf _ v => v
  | .expr _ _ _ => -1

/-- `LeftChild` from `tree.c`: the dummy node on non-`EXPRNode`s. -/
def LeftChild : ILTree → ILTree
  | .expr _ l _ => l
  | _ => .dummyNode

/-- `RightChild` from `tree.c`. -/
def RightChild : ILTree → ILTree
  | .expr _ _ r => r
  | _ => .dummyNode

/-- `IsNull` from `tree.c`. -/
def IsNull (t : ILTree) : Bool := NodeKind t = DUMMYNode

/-- `MakeLeaf` from `tree.c` (children of a leaf are the dummy node). -/
def MakeLeaf (kind : Nat) (n : Int) : ILTree := .leaf kind n

/-- `MakeTree` from `tree.c`. -/
def MakeTree (op : Nat) (l r : ILTree) : ILTree := .expr op l r

/-- `SetLeftChild` from `tree.c`: a no-op (plus a complaint) on a
non-`EXPRNode`. -/
def SetLeftChild (t c : ILTree) : ILTree :=
  match t with
  | .expr op _ r => .expr op c r
  | t => t

/-- `SetRightChild` from `tree.c`. -/
def SetRightChild (t c : ILTree) : ILTree :=
  match t with
  | .expr op l _ => .expr op l c
  | t => t

/-- `LeftDepth` from `tree.c`: the number of nodes along the leftmost path. -/
def LeftDepth : ILTree → Nat
  | .dummyNode => 0
  | .leaf _ _ => 1
  | .expr _ l _ => 1 + LeftDepth l

/-- The length of the right spine of a tree, as counted by the dimension
loop of `declop` (`while (!IsNull(temp)) { n++; temp = RightChild(temp); }`). -/
def rightLen : ILTree → Nat
  | .dummyNode => 0
  | .leaf _ _ => 1
  | .expr _ _ r => 1 + rightLen r

/-! ## The string interner (`string_hash_table.c`)

`loc_str` returns the offset of a string inside the run-time string table
`strg_tbl`, or -1 when absent.  The embedding only needs an injective
encoding of strings as integers with decidable equality, because the
analyzer compares interned ids (`loc_str("main")`, `loc_str("length")`)
for equality only; the concrete offsets depend on the program text. -/
def loc_str (str : String) : Int :=
  str.foldl (fun a c => a * 256 + (c.toNat : Int)) 1

/-! ## Symbol-table state (`tree.c`, symbol-table half)

The C globals: `StackEntry stack[STACK_SIZE]`, `int st[ST_SIZE]`,
`attr_type attrarray[ATTR_SIZE]`, and the four counters.  Arrays are
modelled as total functions from `Nat`; the C arrays are zero-initialised
globals, matching the all-zero default cells used below.  Because
`TYPE_ATTR`/`VALUE_ATTR` store tree pointers cast to `int`, attribute
values are a sum `AttrVal` of an integer and a tree. -/

inductive AttrVal where
  | int (n : Int)
  | node (t : ILTree)
deriving DecidableEq, Repr

/-- Reading an `AttrVal` as the C `int` it is stored as; used where the C
code compares an attribute (e.g. `KIND_ATTR`) against an integer constant.
The missing-attribute value 0 and a stored pointer both read back as the
integer they were in C; a `node` value is never compared to a kind
constant on any embedded path. -/
def attrValInt : AttrVal → Int
  | .int n => n
  | .node _ => 0

/-- Reading an `AttrVal` back as the tree pointer it was cast from
(`(tree)GetAttr(...)` in the C code); an integer reads back as the dummy
node, which no embedded path exercises. -/
def attrValNode : AttrVal → ILTree
  | .node t => t
  | .int _ => .dummyNode

structure StackEntry where
  marker : Bool
  name : Int
  st_ptr : Nat
  dummy : Bool
  used : Bool
deriving DecidableEq, Repr

structure AttrCell where
  attr_num : Nat
  attr_val : AttrVal
  next_attr : Nat
deriving DecidableEq, Repr

structure STState where
  st : Nat → Nat
  attrarray : Nat → AttrCell
  stack : Nat → StackEntry
  st_top : Nat
  attr_top : Nat
  stack_top : Nat
  nesting : Int
  errors : List (Nat × Int)

/-- Pointwise array update, mirroring a C store `a[i] = v`. -/
def upd {α : Type} (f : Nat → α) (i : Nat) (v : α) : Nat → α :=
  fun j => if j = i then v else f j

@[simp] theorem upd_same {α : Type} (f : Nat → α) (i : Nat) (v : α) :
    upd f i v i = v := by
  simp [upd]

@[simp] theorem upd_ne {α : Type} (f : Nat → α) (i : Nat) (v : α) (j : Nat)
    (h : j ≠ i) : upd f i v j = f j := by
  simp [upd, h]

/-- Exit information of a terminated process: the status passed to `exit`
together with the diagnostics printed before exiting. -/
abbrev Exit := Nat × List (Nat × Int)

/-- The process-wide state with all-zero arrays and counters, as a C
program starts (`stack`, `st`, `attrarray` are zero-initialised globals). -/
def initState : STState :=
  { st := fun _ => 0
    attrarray := fun _ => ⟨0, .int 0, 0⟩
    stack := fun _ => ⟨false, 0, 0, false, false⟩
    st_top := 0
    attr_top := 0
    stack_top := 0
    nesting := 0
    errors := [] }

/-! ## `error_msg` (`tree.c` lines 613-730)

Prints `"Semantic Error--line: <L>, <message>"` keyed by the error code
(modelled by appending `(type, id)` to `errors`) and then either returns
(`CONTINUE`) or terminates the process via `exit(0)` (`ABORT`).  Note the
C code calls `exit(0)`: the exit status is zero even for fatal errors. -/
def error_msg (ty : Nat) (action : Nat) (id : Int) (_seq : Nat) (s : STState) :
    Except Exit STState :=
  let s' := { s with errors := s.errors ++ [(ty, id)] }
  if action = ABORT then .error (0, s'.errors) else .ok s'

/-! ## `Push` (`tree.c` lines 1204-1220) -/

def Push (marker : Bool) (name : Int) (st_ptr : Nat) (dummy : Bool)
    (s : STState) : Except Exit STState :=
  if s.stack_top ≥ STACK_SIZE - 1 then
    error_msg STACK_OVERFLOW ABORT 0 0 s
  else
    .ok { s with
      stack_top := s.stack_top + 1
      stack := upd s.stack (s.stack_top + 1) ⟨marker, name, st_ptr, dummy, false⟩ }

/-! ## `LookUp` (`tree.c` lines 791-810)

`for (i = stack_top; i > 0; i--) if (!stack[i].marker && stack[i].name ==
id) { stack[i].used = true; return stack[i].st_ptr; }` — note the scan
does NOT test the `dummy` flag.  On no match it reports `UNDECLARATION`,
pushes a dummy frame and returns 0. -/
def lookUpGo (s : STState) (id : Int) : Nat → Option Nat
  | 0 => none
  | i + 1 =>
    if ¬(s.stack (i + 1)).marker ∧ (s.stack (i + 1)).name = id then some (i + 1)
    else lookUpGo s id i

def LookUp (id : Int) (s : STState) : Except Exit (Nat × STState) :=
  match lookUpGo s id s.stack_top with
  | some i =>
      .ok ((s.stack i).st_ptr,
        { s with stack := upd s.stack i { s.stack i with used := true } })
  | none =>
      match error_msg UNDECLARATION CONTINUE id 0 s with
      | .error e => .error e
      | .ok s1 =>
        match Push false id 0 true s1 with
        | .error e => .error e
        | .ok s2 => .ok (0, s2)

/-! ## `LookUpHere` (`tree.c` lines 826-839)

`for (i = stack_top; !stack[i].marker; i--)` — scans the current block
only, skipping dummy frames.  The C loop has no lower bound: if it walks
past index 0 without meeting a marker it reads out of bounds; the model
treats that as an unsuccessful search (index 0 is the last cell read). -/
def lookUpHereGo (s : STState) (id : Int) : Nat → Nat
  | 0 =>
    if (s.stack 0).marker then 0
    else if (s.stack 0).name = id ∧ ¬(s.stack 0).dummy then (s.stack 0).st_ptr
    else 0
  | i + 1 =>
    if (s.stack (i + 1)).marker then 0
    else if (s.stack (i + 1)).name = id ∧ ¬(s.stack (i + 1)).dummy then
      (s.stack (i + 1)).st_ptr
    else lookUpHereGo s id i

def LookUpHere (id : Int) (s : STState) : Nat :=
  lookUpHereGo s id s.stack_top

/-! ## `OpenBlock` / `CloseBlock` (`tree.c` lines 855-890) -/

def OpenBlock (s : STState) : Except Exit STState :=
  Push true 0 0 false { s with nesting := s.nesting + 1 }

/-- The scan `for (i = stack_top; !stack[i].marker; i--)` of `CloseBlock`:
the index of the topmost marker at or below `n` (0 when no marker exists,
in which case the C scan would underflow the array). -/
def closeBlockGo (s : STState) : Nat → Nat
  | 0 => 0
  | i + 1 => if (s.stack (i + 1)).marker then i + 1 else closeBlockGo s i

def CloseBlock (s : STState) : STState :=
  let i := closeBlockGo s s.stack_top
  { s with nesting := s.nesting - 1, stack_top := i - 1 }

/-! ## `IsAttr` / `GetAttr` (`tree.c` lines 906-959)

The attribute list of a slot is a linked chain in `attrarray`, kept in
ascending `attr_num` order; `IsAttr` walks it, stopping early at the
first cell whose `attr_num` exceeds the wanted one.  The walk takes fuel
(the C loop terminates because well-formed chains are acyclic); all
call sites pass `attr_top + 1`, enough for any well-formed chain. -/
def isAttrGo (s : STState) (attr_num : Nat) : Nat → Nat → Nat
  | 0, _ => 0
  | f + 1, i =>
    if i = 0 then 0
    else
      if (s.attrarray i).attr_num = attr_num then i
      else if (s.attrarray i).attr_num > attr_num then 0
      else isAttrGo s attr_num f (s.attrarray i).next_attr

def IsAttr (s : STState) (st_ptr : Nat) (attr_num : Nat) : Nat :=
  isAttrGo s attr_num (s.attr_top + 1) (s.st st_ptr)

/-- `GetAttr`: the attribute's value, or 0 (after a DEBUG print, not
modelled) when the attribute is absent. -/
def GetAttr (s : STState) (st_ptr : Nat) (attr_num : Nat) : AttrVal :=
  let i := IsAttr s st_ptr attr_num
  if i = 0 then .int 0 else (s.attrarray i).attr_val

/-- `GetAttr` read back as the C `int` (see `attrValInt`). -/
def GetAttrInt (s : STState) (st_ptr : Nat) (attr_num : Nat) : Int :=
  attrValInt (GetAttr s st_ptr attr_num)

/-! ## `SetAttr` (`tree.c` lines 973-1013)

If the attribute exists, overwrite the cell's value in place.  Otherwise
walk the chain to the first cell whose `attr_num` is not smaller (keeping
the predecessor pointer `p`), check capacity, allocate the next pool cell
and splice it in. -/
def setAttrGo (s : STState) (attr_num : Nat) :
    Nat → Option Nat → Nat → Option Nat × Nat
  | 0, prev, next => (prev, next)
  | f + 1, prev, next =>
    if next = 0 then (prev, next)
    else if (s.attrarray next).attr_num < attr_num then
      setAttrGo s attr_num f (some next) (s.attrarray next).next_attr
    else (prev, next)

def SetAttr (s : STState) (st_ptr : Nat) (attr_num : Nat) (v : AttrVal) :
    Except Exit STState :=
  let i := IsAttr s st_ptr attr_num
  if i ≠ 0 then
    .ok { s with attrarray := upd s.attrarray i { s.attrarray i with attr_val := v } }
  else
    let pn := setAttrGo s attr_num (s.attr_top + 1) none (s.st st_ptr)
    if s.attr_top ≥ ATTR_SIZE - 1 then
      error_msg ATTR_OVERFLOW ABORT 0 0 s
    else
      let t := s.attr_top + 1
      let a1 := upd s.attrarray t ⟨attr_num, v, pn.2⟩
      match pn.1 with
      | none => .ok { s with attr_top := t, attrarray := a1, st := upd s.st st_ptr t }
      | some p =>
          .ok { s with attr_top := t, attrarray := upd a1 p { a1 p with next_attr := t } }

/-! ## `InsertEntry` (`tree.c` lines 746-774) -/

def InsertEntry (id : Int) (s : STState) : Except Exit (Nat × STState) :=
  if LookUpHere id s ≠ 0 then
    match error_msg REDECLARATION CONTINUE id 0 s with
    | .error e => .error e
    | .ok s1 => .ok (0, s1)
  else if s.st_top ≥ ST_SIZE - 1 then
    match error_msg ST_OVERFLOW ABORT 0 0 s with
    | .error e => .error e
    | .ok _ => .ok (0, s)
  else
    let t := s.st_top + 1
    let s2 := { s with st_top := t, st := upd s.st t 0 }
    match SetAttr s2 t NAME_ATTR (.int id) with
    | .error e => .error e
    | .ok s3 =>
      match SetAttr s3 t NEST_ATTR (.int s2.nesting) with
      | .error e => .error e
      | .ok s4 =>
        match Push false id t false s4 with
        | .error e => .error e
        | .ok s5 => .ok (t, s5)

/-! ## Result extractors

Observation helpers used to state theorems about runs without comparing
whole states (the state record contains functions). -/

/-- The returned value of a symbol-table call (`0` if the process exited). -/
def okFst (e : Except Exit (Nat × STState)) : Nat :=
  match e with
  | .ok (n, _) => n
  | .error _ => 0

/-- The post-state of a symbol-table call (`dflt` if the process exited). -/
def okSnd (dflt : STState) (e : Except Exit (Nat × STState)) : STState :=
  match e with
  | .ok (_, st) => st
  | .error _ => dflt

/-- The post-state of a state-only call. -/
def okState (dflt : STState) (e : Except Exit STState) : STState :=
  match e with
  | .ok st => st
  | .error _ => dflt

/-- The diagnostics printed by a run of the analyzer, whether it returned
or exited. -/
def errorsOf (e : Except Exit (ILTree × STState)) : List (Nat × Int) :=
  match e with
  | .ok (_, st) => st.errors
  | .error (_, l) => l

/-- The tree produced by a run of the analyzer (the dummy node if the
process exited). -/
def treeOf (e : Except Exit (ILTree × STState)) : ILTree :=
  match e with
  | .ok (t, _) => t
  | .error _ => .dummyNode

/-- The post-state of a run of the analyzer. -/
def stateOf (dflt : STState) (e : Except Exit (ILTree × STState)) : STState :=
  match e with
  | .ok (_, st) => st
  | .error _ => dflt

/-! ## The semantic analyzer (`semantic_analyzer.c`)

`MkST` and its handlers (`classdefop`, `methodop`, `declop`, `specop`,
`typeidop`, `varop`, `routinecallop`) are mutually recursive in C; the
`varop` resolution loop is additionally a state-driven `do/while` that
does not always consume the access chain (so it is not structurally
terminating — e.g. an unhandled `KIND` with a non-empty chain loops
forever).  The embedding packs all of them into one function `analyzeGo`
over a call descriptor `ACall`, recursing on an explicit fuel; each C
routine is recovered as a wrapper.  In-place `IDNode` → `STNode`
replacements become functional rebuilding of the affected subtree. -/

/-- The `main`-redeclaration scan of `methodop`: `for (i = 0; i <= st_top;
i++) if (IsAttr(i, NAME_ATTR)) if (GetAttr(i, NAME_ATTR) == nStrInd) ...`.
`true` iff some symbol-table slot up to the given bound carries the id as
its `NAME_ATTR`. -/
def mainScanGo (s : STState) (id : Int) : Nat → Bool
  | 0 => decide (IsAttr s 0 NAME_ATTR ≠ 0) && decide (GetAttrInt s 0 NAME_ATTR = id)
  | i + 1 =>
    mainScanGo s id i ||
      (decide (IsAttr s (i + 1) NAME_ATTR ≠ 0) && decide (GetAttrInt s (i + 1) NAME_ATTR = id))

/-- The field search of `varop`'s `CLASS` case: starting at `st_ind0 + 1`,
a `do/while` that tests each slot's `NAME_ATTR`/`NEST_ATTR` (the first
iteration runs unconditionally) and continues while `i <= st_top &&
GetAttr(i, NEST_ATTR) > nest0` after incrementing.  The fuel passed by
the caller (`st_top + 2`) covers the longest possible scan. -/
def classFieldScanGo (s : STState) (fieldname : Int) (nest0 : Int) :
    Nat → Nat → Option Nat
  | 0, _ => none
  | fu + 1, i =>
    if GetAttrInt s i NAME_ATTR = fieldname ∧ GetAttrInt s i NEST_ATTR = nest0 + 1 then
      some i
    else if i + 1 ≤ s.st_top ∧ GetAttrInt s (i + 1) NEST_ATTR > nest0 then
      classFieldScanGo s fieldname nest0 fu (i + 1)
    else none

/-- The index-validation loop of `varop`'s `CLASS`/`IndexOp` branch (only
reachable with the declaration-context flag): the cursor starts at the
chain element after the first index; the loop body advances before it
inspects the new element's left child, so it reads the dummy node at the
chain's end and reports `FIELD_MIS` with id `IntVal(LeftChild(dummy)) = 0`
whenever two or more elements remain.  Returns the id to report, or
`none` when the scan falls off the chain without a complaint. -/
def classIndexScanGo : ILTree → Option Int
  | .dummyNode => none
  | .leaf _ _ => some 0
  | .expr _ _ r =>
    let fld := LeftChild r
    if NodeOp fld ≠ IndexOp then some (IntVal (LeftChild fld))
    else classIndexScanGo r

/-- `typeidop` (`semantic_analyzer.c`): walk the right spine of a type
tree; at every level whose left child is a non-null, non-`INTEGERTNode`
leaf, resolve it with `LookUp` and replace it with an `STNode` (even when
the lookup failed and returned 0). -/
def typeidop2 : ILTree → STState → Except Exit (ILTree × STState)
  | .dummyNode, s => .ok (.dummyNode, s)
  | .leaf k v, s => .ok (.leaf k v, s)
  | .expr op l r, s =>
    let step : Except Exit (ILTree × STState) :=
      if ¬IsNull l ∧ NodeKind l ≠ INTEGERTNode then
        match LookUp (IntVal l) s with
        | .error e => .error e
        | .ok (n, s1) => .ok (MakeLeaf STNode n, s1)
      else .ok (l, s)
    match step with
    | .error e => .error e
    | .ok (l1, s1) =>
      match typeidop2 r s1 with
      | .error e => .error e
      | .ok (r1, s2) => .ok (.expr op l1 r1, s2)

/-- Call descriptors for the analyzer: one per C routine, plus one per
loop that the C routines contain (`specop`'s parameter walk, `varop`'s
`do/while`, and the two index-consuming loops of its `ARR` case). -/
inductive ACall where
  | mkST (t : ILTree)
  | classdef (t : ILTree)
  | methoddef (t : ILTree)
  | decldef (t : ILTree)
  | specdef (t : ILTree)
  | specloop (t : ILTree)
  | vardef (t : ILTree) (flag : Int)
  | varloop (flag : Int) (st_ind0 : Nat) (nest0 : Int) (rchild : ILTree)
  | arrint (flag : Int) (st_ind0 : Nat) (nest0 : Int) (dimension d : Int) (rchild : ILTree)
  | arrclass (flag : Int) (st_ind0 : Nat) (nest0 : Int) (tempind : Nat)
      (dimension d : Int) (rchild : ILTree)
  | routinecall (t : ILTree)
deriving Repr

def analyzeGo : Nat → ACall → STState → Except Exit (ILTree × STState)
  | 0, _, s => .error (FUEL_OUT, s.errors)
  | f + 1, c, s =>
    match c with
    | .mkST t =>
      if IsNull t then .ok (t, s)
      else if NodeOp t = ClassDefOp then analyzeGo f (.classdef t) s
      else if NodeOp t = MethodOp then analyzeGo f (.methoddef t) s
      else if NodeOp t = DeclOp then analyzeGo f (.decldef t) s
      else if NodeOp t = SpecOp then analyzeGo f (.specdef t) s
      else if NodeOp t = TypeIdOp then typeidop2 t s
      else if NodeOp t = VarOp then analyzeGo f (.vardef t 0) s
      else if NodeOp t = RoutineCallOp then analyzeGo f (.routinecall t) s
      else
        match analyzeGo f (.mkST (LeftChild t)) s with
        | .error e => .error e
        | .ok (l1, s1) =>
          let t1 := SetLeftChild t l1
          match analyzeGo f (.mkST (RightChild t1)) s1 with
          | .error e => .error e
          | .ok (r1, s2) => .ok (SetRightChild t1 r1, s2)
    | .classdef node =>
      let nStrInd := IntVal (RightChild node)
      match InsertEntry nStrInd s with
      | .error e => .error e
      | .ok (nSymInd, s1) =>
        match SetAttr s1 nSymInd KIND_ATTR (.int CLASS) with
        | .error e => .error e
        | .ok s2 =>
          match OpenBlock s2 with
          | .error e => .error e
          | .ok s3 =>
            let node1 := SetRightChild node (MakeLeaf STNode nSymInd)
            match analyzeGo f (.mkST (LeftChild node1)) s3 with
            | .error e => .error e
            | .ok (lt, s4) => .ok (SetLeftChild node1 lt, CloseBlock s4)
    | .methoddef node =>
      let child := LeftChild node
      let nStrInd := IntVal (LeftChild child)
      if nStrInd = loc_str "main" ∧ mainScanGo s nStrInd s.st_top = true then
        match error_msg REDECLARATION CONTINUE nStrInd 0 s with
        | .error e => .error e
        | .ok s1 => .ok (node, s1)
      else
        match InsertEntry nStrInd s with
        | .error e => .error e
        | .ok (nSymInd, s1) =>
          match OpenBlock s1 with
          | .error e => .error e
          | .ok s2 =>
            let child1 := RightChild (RightChild child)
            let kindRes :=
              if ¬IsNull child1 then
                match SetAttr s2 nSymInd KIND_ATTR (.int FUNC) with
                | .error e => .error e
                | .ok sa => SetAttr sa nSymInd TYPE_ATTR (.node child1)
              else SetAttr s2 nSymInd KIND_ATTR (.int PROCE)
            match kindRes with
            | .error e => .error e
            | .ok s3 =>
              let childA := SetLeftChild child (MakeLeaf STNode nSymInd)
              match analyzeGo f (.mkST (RightChild childA)) s3 with
              | .error e => .error e
              | .ok (params1, s4) =>
                let childB := SetRightChild childA params1
                match analyzeGo f (.mkST (RightChild node)) s4 with
                | .error e => .error e
                | .ok (body1, s5) =>
                  .ok (SetRightChild (SetLeftChild node childB) body1, CloseBlock s5)
    | .decldef node =>
      if IsNull node then .ok (node, s)
      else
        let child1 := RightChild node
        let nStrInd := IntVal (LeftChild child1)
        match InsertEntry nStrInd s with
        | .error e => .error e
        | .ok (nSymInd, s1) =>
          if nSymInd = 0 then .ok (node, s1)
          else
            let typenode := LeftChild (RightChild child1)
            match SetAttr s1 nSymInd TYPE_ATTR (.node typenode) with
            | .error e => .error e
            | .ok s2 =>
              let child1a := SetLeftChild child1 (MakeLeaf STNode nSymInd)
              match typeidop2 typenode s2 with
              | .error e => .error e
              | .ok (typenode1, s3) =>
                let kindRes :=
                  if IsNull (RightChild typenode1) then
                    SetAttr s3 nSymInd KIND_ATTR (.int VAR)
                  else if NodeOp (RightChild typenode1) = IndexOp then
                    match SetAttr s3 nSymInd DIMEN_ATTR
                        (.int (rightLen (RightChild typenode1))) with
                    | .error e => .error e
                    | .ok sb => SetAttr sb nSymInd KIND_ATTR (.int ARR)
                  else .ok s3
                match kindRes with
                | .error e => .error e
                | .ok s4 =>
                  let child1b :=
                    SetRightChild child1a (SetLeftChild (RightChild child1a) typenode1)
                  let child2 := RightChild (RightChild child1b)
                  let initRes :=
                    if NodeOp child2 = VarOp then analyzeGo f (.vardef child2 1) s4
                    else analyzeGo f (.mkST child2) s4
                  match initRes with
                  | .error e => .error e
                  | .ok (child2a, s5) =>
                    let child1c :=
                      SetRightChild child1b (SetRightChild (RightChild child1b) child2a)
                    match analyzeGo f (.decldef (LeftChild node)) s5 with
                    | .error e => .error e
                    | .ok (leftRes, s6) =>
                      .ok (SetRightChild (SetLeftChild node leftRes) child1c, s6)
    | .specdef node =>
      match analyzeGo f (.specloop (LeftChild node)) s with
      | .error e => .error e
      | .ok (l1, s1) => .ok (SetLeftChild node l1, s1)
    | .specloop child =>
      if IsNull child then .ok (child, s)
      else
        let child1 := LeftChild child
        let nStrInd := IntVal (LeftChild child1)
        match InsertEntry nStrInd s with
        | .error e => .error e
        | .ok (nSymInd, s1) =>
          match SetAttr s1 nSymInd TYPE_ATTR (.node (RightChild child1)) with
          | .error e => .error e
          | .ok s2 =>
            let kindRes :=
              if NodeOp child = VArgTypeOp then SetAttr s2 nSymInd KIND_ATTR (.int VALUE_ARG)
              else if NodeOp child = RArgTypeOp then SetAttr s2 nSymInd KIND_ATTR (.int REF_ARG)
              else .ok s2
            match kindRes with
            | .error e => .error e
            | .ok s3 =>
              let child1a := SetLeftChild child1 (MakeLeaf STNode nSymInd)
              match analyzeGo f (.specloop (RightChild child)) s3 with
              | .error e => .error e
              | .ok (rest1, s4) =>
                .ok (SetRightChild (SetLeftChild child child1a) rest1, s4)
    | .vardef node flag =>
      let lchild := LeftChild node
      match LookUp (IntVal lchild) s with
      | .error e => .error e
      | .ok (nSymInd, s1) =>
        if nSymInd = 0 then
          match error_msg UNDECLARATION CONTINUE (IntVal lchild) 0 s1 with
          | .error e => .error e
          | .ok s2 => .ok (node, s2)
        else
          let node1 := SetLeftChild node (MakeLeaf STNode nSymInd)
          match analyzeGo f (.varloop flag nSymInd (-1) (RightChild node1)) s1 with
          | .error e => .error e
          | .ok (chain1, s2) => .ok (SetRightChild node1 chain1, s2)
    | .varloop flag st_ind0 nest0 rchild =>
      let k := GetAttrInt s st_ind0 KIND_ATTR
      if k = VAR then
        let ty := attrValNode (GetAttr s st_ind0 TYPE_ATTR)
        let temp := LeftChild ty
        if NodeKind temp = INTEGERTNode then
          if IsNull rchild then .ok (rchild, s)
          else
            match error_msg FIELD_MIS CONTINUE
                (IntVal (LeftChild (LeftChild rchild))) 0 s with
            | .error e => .error e
            | .ok s1 => .ok (rchild, s1)
        else
          let st1 := (IntVal temp).toNat
          let nest1 := if IntVal temp ≠ 0 then GetAttrInt s st1 NEST_ATTR else nest0
          if IsNull rchild then .ok (rchild, s)
          else analyzeGo f (.varloop flag st1 nest1 rchild) s
      else if k = PROCE ∨ k = FUNC then
        if IsNull rchild then .ok (rchild, s)
        else .error (1, s.errors)
      else if k = CLASS then
        let nest1 := GetAttrInt s st_ind0 NEST_ATTR
        let fld := LeftChild rchild
        if NodeOp fld = FieldOp then
          match classFieldScanGo s (IntVal (LeftChild fld)) nest1 (s.st_top + 2)
              (st_ind0 + 1) with
          | some i =>
            let fld1 := SetLeftChild fld (MakeLeaf STNode i)
            let rest := RightChild rchild
            if IsNull rest then .ok (SetRightChild (SetLeftChild rchild fld1) rest, s)
            else
              match analyzeGo f (.varloop flag i (nest1 + 1) rest) s with
              | .error e => .error e
              | .ok (rest1, s1) => .ok (SetRightChild (SetLeftChild rchild fld1) rest1, s1)
          | none =>
            match error_msg UNDECLARATION CONTINUE (IntVal (LeftChild fld)) 0 s with
            | .error e => .error e
            | .ok s1 => .ok (rchild, s1)
        else if NodeOp fld = IndexOp then
          if flag ≠ 1 then
            match error_msg TYPE_MIS CONTINUE (GetAttrInt s st_ind0 NAME_ATTR) 0 s with
            | .error e => .error e
            | .ok s1 => .ok (rchild, s1)
          else
            match classIndexScanGo (RightChild rchild) with
            | some badId =>
              match error_msg FIELD_MIS CONTINUE badId 0 s with
              | .error e => .error e
              | .ok s1 => .ok (rchild, s1)
            | none => .ok (rchild, s)
        else
          if IsNull rchild then .ok (rchild, s)
          else analyzeGo f (.varloop flag st_ind0 nest1 rchild) s
      else if k = ARR then
        if IsNull rchild then
          match error_msg INDX_MIS CONTINUE (GetAttrInt s st_ind0 NAME_ATTR) 0 s with
          | .error e => .error e
          | .ok s1 => .ok (rchild, s1)
        else
          let ty := attrValNode (GetAttr s st_ind0 TYPE_ATTR)
          let temp := LeftChild ty
          let dimension := GetAttrInt s st_ind0 DIMEN_ATTR
          if NodeKind temp = INTEGERTNode then
            analyzeGo f (.arrint flag st_ind0 nest0 dimension 0 rchild) s
          else if IntVal temp ≠ 0 then
            analyzeGo f (.arrclass flag st_ind0 nest0 (IntVal temp).toNat dimension 0 rchild) s
          else analyzeGo f (.varloop flag st_ind0 nest0 rchild) s
      else
        if IsNull rchild then .ok (rchild, s)
        else analyzeGo f (.varloop flag st_ind0 nest0 rchild) s
    | .arrint flag st_ind0 nest0 dimension d rchild =>
      if ¬IsNull rchild ∧ NodeOp (LeftChild rchild) ≠ FieldOp then
        if d + 1 > dimension then
          match error_msg INDX_MIS CONTINUE (GetAttrInt s st_ind0 NAME_ATTR) 0 s with
          | .error e => .error e
          | .ok s1 => .ok (rchild, s1)
        else
          let fld := LeftChild rchild
          let idxRes : Except Exit (ILTree × STState) :=
            if NodeKind (LeftChild fld) = EXPRNode then
              match analyzeGo f (.mkST (LeftChild fld)) s with
              | .error e => .error e
              | .ok (e1, s1) => .ok (SetLeftChild fld e1, s1)
            else .ok (fld, s)
          match idxRes with
          | .error e => .error e
          | .ok (fld1, s1) =>
            match analyzeGo f
                (.arrint flag st_ind0 nest0 dimension (d + 1) (RightChild rchild)) s1 with
            | .error e => .error e
            | .ok (rest1, s2) => .ok (SetRightChild (SetLeftChild rchild fld1) rest1, s2)
      else if IsNull rchild ∧ d < dimension then
        match error_msg INDX_MIS CONTINUE (GetAttrInt s st_ind0 NAME_ATTR) 0 s with
        | .error e => .error e
        | .ok s1 => .ok (rchild, s1)
      else if ¬IsNull rchild then
        if IntVal (LeftChild (LeftChild rchild)) ≠ loc_str "length" then
          match error_msg TYPE_MIS CONTINUE (GetAttrInt s st_ind0 NAME_ATTR) 0 s with
          | .error e => .error e
          | .ok s1 => .ok (rchild, s1)
        else if ¬IsNull (RightChild rchild) then
          match error_msg TYPE_MIS CONTINUE (GetAttrInt s st_ind0 NAME_ATTR) 0 s with
          | .error e => .error e
          | .ok s1 => .ok (rchild, s1)
        else .ok (rchild, s)
      else .ok (rchild, s)
    | .arrclass flag st_ind0 nest0 tempind dimension d rchild =>
      if ¬IsNull rchild ∧ NodeOp (LeftChild rchild) ≠ FieldOp then
        if d + 1 > dimension then
          match error_msg INDX_MIS CONTINUE (GetAttrInt s st_ind0 NAME_ATTR) 0 s with
          | .error e => .error e
          | .ok s1 => .ok (rchild, s1)
        else
          let fld := LeftChild rchild
          let idxRes : Except Exit (ILTree × STState) :=
            if NodeKind (LeftChild fld) = EXPRNode then
              match analyzeGo f (.mkST (LeftChild fld)) s with
              | .error e => .error e
              | .ok (e1, s1) => .ok (SetLeftChild fld e1, s1)
            else .ok (fld, s)
          match idxRes with
          | .error e => .error e
          | .ok (fld1, s1) =>
            match analyzeGo f
                (.arrclass flag st_ind0 nest0 tempind dimension (d + 1)
                  (RightChild rchild)) s1 with
            | .error e => .error e
            | .ok (rest1, s2) => .ok (SetRightChild (SetLeftChild rchild fld1) rest1, s2)
      else if IsNull rchild ∧ d < dimension then
        match error_msg INDX_MIS CONTINUE (GetAttrInt s st_ind0 NAME_ATTR) 0 s with
        | .error e => .error e
        | .ok s1 => .ok (rchild, s1)
      else if ¬IsNull rchild then
        if IntVal (LeftChild (LeftChild rchild)) ≠ loc_str "length" then
          analyzeGo f (.varloop flag tempind (GetAttrInt s tempind NEST_ATTR) rchild) s
        else if ¬IsNull (RightChild rchild) then
          match error_msg TYPE_MIS CONTINUE (GetAttrInt s st_ind0 NAME_ATTR) 0 s with
          | .error e => .error e
          | .ok s1 => .ok (rchild, s1)
        else .ok (rchild, s)
      else .ok (rchild, s)
    | .routinecall node =>
      match analyzeGo f (.vardef (LeftChild node) 2) s with
      | .error e => .error e
      | .ok (l1, s1) =>
        let node1 := SetLeftChild node l1
        match analyzeGo f (.mkST (RightChild node1)) s1 with
        | .error e => .error e
        | .ok (r1, s2) => .ok (SetRightChild node1 r1, s2)

/-- `MkST` (`semantic_analyzer.c` lines 1847-1897), with explicit fuel. -/
def MkST (f : Nat) (t : ILTree) (s : STState) : Except Exit (ILTree × STState) :=
  analyzeGo f (.mkST t) s

/-- `methodop` (`semantic_analyzer.c` lines 464-543), with explicit fuel. -/
def methodop (f : Nat) (t : ILTree) (s : STState) : Except Exit (ILTree × STState) :=
  analyzeGo f (.methoddef t) s

/-- `varop` (`semantic_analyzer.c` lines 1249-1713), with explicit fuel. -/
def varop (f : Nat) (t : ILTree) (flag : Int) (s : STState) :
    Except Exit (ILTree × STState) :=
  analyzeGo f (.vardef t flag) s

/-! ## Basic lemmas about the embedded operations -/

theorem isAttrGo_zero (s : STState) (a : Nat) (fuel : Nat) :
    isAttrGo s a fuel 0 = 0 := by
  cases fuel <;> simp [isAttrGo]

theorem setAttrGo_zero (s : STState) (a : Nat) (fuel : Nat) (prev : Option Nat) :
    setAttrGo s a fuel prev 0 = (prev, 0) := by
  cases fuel <;> simp [setAttrGo]

/-- `IsAttr`, `GetAttr` read only `st`, `attrarray` and `attr_top`; a state
differing only in the scope stack or the diagnostics gives the same
attributes. -/
theorem isAttrGo_congr (s s' : STState) (ha : s'.attrarray = s.attrarray)
    (a : Nat) : ∀ fuel i, isAttrGo s' a fuel i = isAttrGo s a fuel i := by
  intro fuel
  induction fuel with
  | zero => intro i; simp [isAttrGo]
  | succ f ih => intro i; simp only [isAttrGo, ha, ih]

theorem GetAttr_congr (s s' : STState) (hst : s'.st = s.st)
    (ha : s'.attrarray = s.attrarray) (ht : s'.attr_top = s.attr_top)
    (p a : Nat) : GetAttr s' p a = GetAttr s p a := by
  simp [GetAttr, IsAttr, hst, ha, ht, isAttrGo_congr s s' ha]

theorem GetAttrInt_congr (s s' : STState) (hst : s'.st = s.st)
    (ha : s'.attrarray = s.attrarray) (ht : s'.attr_top = s.attr_top)
    (p a : Nat) : GetAttrInt s' p a = GetAttrInt s p a := by
  simp [GetAttrInt, GetAttr_congr s s' hst ha ht]

@[simp] theorem attrValInt_int (n : Int) : attrValInt (.int n) = n := rfl

@[simp] theorem attrValNode_node (t : ILTree) : attrValNode (.node t) = t := rfl

/-! ## Characterisation of the `LookUp` scan (`tree.c` lines 791-810) -/

theorem lookUpGo_some (s : STState) (id : Int) :
    ∀ n i, lookUpGo s id n = some i →
      0 < i ∧ i ≤ n ∧ (s.stack i).marker = false ∧ (s.stack i).name = id ∧
        ∀ j, i < j → j ≤ n → (s.stack j).marker = true ∨ (s.stack j).name ≠ id := by
  intro n
  induction n with
  | zero => intro i h; simp [lookUpGo] at h
  | succ n ih =>
    intro i h
    rw [lookUpGo] at h
    by_cases hc : ¬(s.stack (n + 1)).marker ∧ (s.stack (n + 1)).name = id
    · rw [if_pos hc] at h
      cases h
      refine ⟨Nat.succ_pos n, le_refl _, by simpa using hc.1, hc.2, ?_⟩
      intro j hj1 hj2
      exact absurd (hj1.trans_le hj2) (lt_irrefl _)
    · rw [if_neg hc] at h
      obtain ⟨h1, h2, h3, h4, h5⟩ := ih i h
      refine ⟨h1, Nat.le_succ_of_le h2, h3, h4, ?_⟩
      intro j hj1 hj2
      rcases Nat.lt_or_ge j (n + 1) with hj | hj
      · exact h5 j hj1 (by omega)
      · have hjeq : j = n + 1 := by omega
        subst hjeq
        by_cases hm : (s.stack (n + 1)).marker
        · exact Or.inl hm
        · right
          intro hname
          exact hc ⟨hm, hname⟩

theorem lookUpGo_none (s : STState) (id : Int) :
    ∀ n, lookUpGo s id n = none →
      ∀ j, 0 < j → j ≤ n → (s.stack j).marker = true ∨ (s.stack j).name ≠ id := by
  intro n
  induction n with
  | zero => intro _ j hj1 hj2; exact absurd hj1 (by omega)
  | succ n ih =>
    intro h j hj1 hj2
    rw [lookUpGo] at h
    by_cases hc : ¬(s.stack (n + 1)).marker ∧ (s.stack (n + 1)).name = id
    · rw [if_pos hc] at h; cases h
    · rw [if_neg hc] at h
      rcases Nat.lt_or_ge j (n + 1) with hj | hj
      · exact ih h j hj1 (by omega)
      · have hjeq : j = n + 1 := by omega
        by_cases hm : (s.stack j).marker
        · exact Or.inl hm
        · right
          intro hname
          rw [hjeq] at hm hname
          exact hc ⟨hm, hname⟩

/-- The result equation of `LookUp` when the scan finds a frame. -/
theorem LookUp_found (s : STState) (id : Int) (i : Nat)
    (h : lookUpGo s id s.stack_top = some i) :
    LookUp id s = .ok ((s.stack i).st_ptr,
      { s with stack := upd s.stack i { s.stack i with used := true } }) := by
  simp [LookUp, h]

/-- The result equation of `LookUp` when the scan fails: report
`UNDECLARATION` and push a dummy frame. -/
theorem LookUp_missing (s : STState) (id : Int)
    (h : lookUpGo s id s.stack_top = none)
    (hstk : s.stack_top < STACK_SIZE - 1) :
    LookUp id s = .ok (0,
      { s with errors := s.errors ++ [(UNDECLARATION, id)],
               stack_top := s.stack_top + 1,
               stack := upd s.stack (s.stack_top + 1) ⟨false, id, 0, true, false⟩ }) := by
  have hp : ¬ s.stack_top ≥ STACK_SIZE - 1 := by
    simp only [STACK_SIZE] at hstk ⊢; omega
  simp [LookUp, h, error_msg, ABORT, CONTINUE, Push, hp]

/-! ## The two result shapes of `InsertEntry` (`tree.c` lines 746-774) -/

theorem InsertEntry_redecl (id : Int) (s : STState) (h : LookUpHere id s ≠ 0) :
    InsertEntry id s = .ok (0, { s with errors := s.errors ++ [(REDECLARATION, id)] }) := by
  simp [InsertEntry, h, error_msg, CONTINUE, ABORT]

theorem InsertEntry_overflow (id : Int) (s : STState)
    (hno : LookUpHere id s = 0) (h : s.st_top ≥ ST_SIZE - 1) :
    InsertEntry id s = .error (0, s.errors ++ [(ST_OVERFLOW, 0)]) := by
  have hno' : ¬ LookUpHere id s ≠ 0 := by simp [hno]
  simp [InsertEntry, hno', h, error_msg, ABORT]

/-- `SetAttr` on a slot with an empty attribute list (`st[p] = 0`):
allocate the next pool cell and hang it off the slot head. -/
theorem SetAttr_fresh (s : STState) (p k : Nat) (v : AttrVal)
    (hp : s.st p = 0) (hcap : s.attr_top < ATTR_SIZE - 1) :
    SetAttr s p k v = .ok
      { s with attr_top := s.attr_top + 1,
               attrarray := upd s.attrarray (s.attr_top + 1) ⟨k, v, 0⟩,
               st := upd s.st p (s.attr_top + 1) } := by
  have h1 : IsAttr s p k = 0 := by
    simp [IsAttr, hp, isAttrGo_zero]
  have h2 : setAttrGo s k (s.attr_top + 1) none (s.st p) = (none, 0) := by
    rw [hp]; exact setAttrGo_zero s k _ none
  have hc : ¬ s.attr_top ≥ ATTR_SIZE - 1 := by omega
  simp [SetAttr, h1, h2, hc]

/-- `SetAttr` on a slot whose attribute list is the single cell `h` with a
smaller attribute number: allocate the next pool cell and append it behind
`h`. -/
theorem SetAttr_append (s : STState) (p h k : Nat) (v : AttrVal)
    (hp : s.st p = h) (hne : h ≠ 0) (hle : h ≤ s.attr_top)
    (k0 : Nat) (v0 : AttrVal) (hcell : s.attrarray h = ⟨k0, v0, 0⟩)
    (hlt : k0 < k) (hcap : s.attr_top < ATTR_SIZE - 1) :
    SetAttr s p k v = .ok
      { s with attr_top := s.attr_top + 1,
               attrarray := upd (upd s.attrarray (s.attr_top + 1) ⟨k, v, 0⟩) h
                 ⟨k0, v0, s.attr_top + 1⟩ } := by
  have hk0ne : ¬ k0 = k := by omega
  have hk0gt : ¬ k0 > k := by omega
  have h1 : IsAttr s p k = 0 := by
    rw [IsAttr, hp]
    rw [isAttrGo]
    simp [hne, hcell, hk0ne, hk0gt, isAttrGo_zero]
  have h2 : setAttrGo s k (s.attr_top + 1) none (s.st p) = (some h, 0) := by
    rw [hp]
    rw [setAttrGo]
    simp [hne, hcell, hlt, setAttrGo_zero]
  have hc : ¬ s.attr_top ≥ ATTR_SIZE - 1 := by omega
  have hne2 : h ≠ s.attr_top + 1 := by omega
  simp [SetAttr, h1, h2, hc, hcell, hne2]

/-- The state produced by a successful `InsertEntry id`: `st_top`
advances, the new slot's chain is the `NAME_ATTR` cell (at `attr_top+1`)
followed by the `NEST_ATTR` cell (at `attr_top+2`), and a non-marker,
non-dummy, unused frame is pushed. -/
def insertedOk (id : Int) (s : STState) : STState :=
  { st := upd (upd s.st (s.st_top + 1) 0) (s.st_top + 1) (s.attr_top + 1)
    attrarray := upd (upd (upd s.attrarray (s.attr_top + 1) ⟨NAME_ATTR, .int id, 0⟩)
        (s.attr_top + 2) ⟨NEST_ATTR, .int s.nesting, 0⟩)
        (s.attr_top + 1) ⟨NAME_ATTR, .int id, s.attr_top + 2⟩
    stack := upd s.stack (s.stack_top + 1) ⟨false, id, s.st_top + 1, false, false⟩
    st_top := s.st_top + 1
    attr_top := s.attr_top + 2
    stack_top := s.stack_top + 1
    nesting := s.nesting
    errors := s.errors }

theorem InsertEntry_success (id : Int) (s : STState)
    (hno : LookUpHere id s = 0) (hst : s.st_top < ST_SIZE - 1)
    (hstk : s.stack_top < STACK_SIZE - 1) (hattr : s.attr_top + 1 < ATTR_SIZE - 1) :
    InsertEntry id s = .ok (s.st_top + 1, insertedOk id s) := by
  have hno' : ¬ LookUpHere id s ≠ 0 := by simp [hno]
  have hov : ¬ s.st_top ≥ ST_SIZE - 1 := by omega
  have e1 : SetAttr { s with st_top := s.st_top + 1, st := upd s.st (s.st_top + 1) 0 }
      (s.st_top + 1) NAME_ATTR (.int id) = .ok
      { s with st_top := s.st_top + 1,
               st := upd (upd s.st (s.st_top + 1) 0) (s.st_top + 1) (s.attr_top + 1),
               attr_top := s.attr_top + 1,
               attrarray := upd s.attrarray (s.attr_top + 1) ⟨NAME_ATTR, .int id, 0⟩ } := by
    exact SetAttr_fresh _ _ _ _ (upd_same _ _ _) (by show s.attr_top < ATTR_SIZE - 1; omega)
  have e2 : SetAttr
      { s with st_top := s.st_top + 1,
               st := upd (upd s.st (s.st_top + 1) 0) (s.st_top + 1) (s.attr_top + 1),
               attr_top := s.attr_top + 1,
               attrarray := upd s.attrarray (s.attr_top + 1) ⟨NAME_ATTR, .int id, 0⟩ }
      (s.st_top + 1) NEST_ATTR (.int s.nesting) = .ok
      { s with st_top := s.st_top + 1,
               st := upd (upd s.st (s.st_top + 1) 0) (s.st_top + 1) (s.attr_top + 1),
               attr_top := s.attr_top + 2,
               attrarray := upd (upd (upd s.attrarray (s.attr_top + 1)
                   ⟨NAME_ATTR, .int id, 0⟩)
                 (s.attr_top + 2) ⟨NEST_ATTR, .int s.nesting, 0⟩)
                 (s.attr_top + 1) ⟨NAME_ATTR, .int id, s.attr_top + 2⟩ } := by
    exact SetAttr_append _ _ (s.attr_top + 1) _ _ (upd_same _ _ _) (by omega)
      (by show s.attr_top + 1 ≤ s.attr_top + 1; omega) NAME_ATTR (.int id)
      (upd_same _ _ _) (by simp [NAME_ATTR, NEST_ATTR])
      (by show s.attr_top + 1 < ATTR_SIZE - 1; omega)
  have e3 : Push false id (s.st_top + 1) false
      { s with st_top := s.st_top + 1,
               st := upd (upd s.st (s.st_top + 1) 0) (s.st_top + 1) (s.attr_top + 1),
               attr_top := s.attr_top + 2,
               attrarray := upd (upd (upd s.attrarray (s.attr_top + 1)
                   ⟨NAME_ATTR, .int id, 0⟩)
                 (s.attr_top + 2) ⟨NEST_ATTR, .int s.nesting, 0⟩)
                 (s.attr_top + 1) ⟨NAME_ATTR, .int id, s.attr_top + 2⟩ }
      = .ok (insertedOk id s) := by
    have hp : ¬ s.stack_top ≥ STACK_SIZE - 1 := by omega
    simp [Push, hp, insertedOk]
  simp only [InsertEntry]
  rw [if_neg hno', if_neg hov]
  rw [e1]
  simp only [e2, e3]

/-- Attribute observations on the post-state of a successful insertion:
the new slot carries `NAME_ATTR = id` and `NEST_ATTR = nesting`, both
present. -/
theorem insertedOk_attrs (id : Int) (s : STState) :
    IsAttr (insertedOk id s) (s.st_top + 1) NAME_ATTR = s.attr_top + 1 ∧
    GetAttr (insertedOk id s) (s.st_top + 1) NAME_ATTR = .int id ∧
    IsAttr (insertedOk id s) (s.st_top + 1) NEST_ATTR = s.attr_top + 2 ∧
    GetAttr (insertedOk id s) (s.st_top + 1) NEST_ATTR = .int s.nesting := by
  have hne1 : s.attr_top + 1 ≠ 0 := by omega
  have hne2 : s.attr_top + 2 ≠ 0 := by omega
  have hne12 : s.attr_top + 2 ≠ s.attr_top + 1 := by omega
  have hhead : (insertedOk id s).st (s.st_top + 1) = s.attr_top + 1 := upd_same _ _ _
  have hc1 : (insertedOk id s).attrarray (s.attr_top + 1)
      = ⟨NAME_ATTR, .int id, s.attr_top + 2⟩ := upd_same _ _ _
  have hc2 : (insertedOk id s).attrarray (s.attr_top + 2)
      = ⟨NEST_ATTR, .int s.nesting, 0⟩ := by
    show upd _ (s.attr_top + 1) _ (s.attr_top + 2) = _
    rw [upd_ne _ _ _ _ hne12, upd_same]
  have htop : (insertedOk id s).attr_top = s.attr_top + 2 := rfl
  have hNA : IsAttr (insertedOk id s) (s.st_top + 1) NAME_ATTR = s.attr_top + 1 := by
    rw [IsAttr, hhead, htop, isAttrGo, if_neg hne1, hc1]
    simp
  have hstep : (s.attr_top + 2 : Nat) = (s.attr_top + 1) + 1 := rfl
  have hNE : IsAttr (insertedOk id s) (s.st_top + 1) NEST_ATTR = s.attr_top + 2 := by
    rw [IsAttr, hhead, htop, isAttrGo, if_neg hne1, hc1]
    simp only [NAME_ATTR, NEST_ATTR]
    norm_num
    rw [hstep, isAttrGo, if_neg hne2, hc2]
    simp [NEST_ATTR]
  refine ⟨hNA, ?_, hNE, ?_⟩
  · rw [GetAttr]
    simp only [hNA]
    rw [if_neg hne1, hc1]
  · rw [GetAttr]
    simp only [hNE]
    rw [if_neg hne2, hc2]

/-- Claim C5: a fresh name is inserted with `Name`/`Nest` attributes set,
a non-marker, non-dummy, unused frame pushed, the new `SymId` returned;
both attributes are present on every id a successful `InsertEntry`
returns, and a name already bound in the current scope fails with
`Redeclaration`.  The three capacity hypotheses keep the run clear of the
stack/pool overflow aborts, which the claim does not cover. -/
theorem C5_insert_entry (id : Int) (s : STState)
    (hno : LookUpHere id s = 0) (hst : s.st_top < ST_SIZE - 1)
    (hstk : s.stack_top < STACK_SIZE - 1) (hattr : s.attr_top + 1 < ATTR_SIZE - 1) :
    okFst (InsertEntry id s) = s.st_top + 1 ∧
    (okSnd s (InsertEntry id s)).st_top = s.st_top + 1 ∧
    GetAttr (okSnd s (InsertEntry id s)) (s.st_top + 1) NAME_ATTR = .int id ∧
    IsAttr (okSnd s (InsertEntry id s)) (s.st_top + 1) NAME_ATTR ≠ 0 ∧
    GetAttr (okSnd s (InsertEntry id s)) (s.st_top + 1) NEST_ATTR = .int s.nesting ∧
    IsAttr (okSnd s (InsertEntry id s)) (s.st_top + 1) NEST_ATTR ≠ 0 ∧
    (okSnd s (InsertEntry id s)).stack_top = s.stack_top + 1 ∧
    (okSnd s (InsertEntry id s)).stack (s.stack_top + 1)
      = ⟨false, id, s.st_top + 1, false, false⟩ ∧
    (okSnd s (InsertEntry id s)).errors = s.errors ∧
    (∀ id2 s2, LookUpHere id2 s2 ≠ 0 →
      InsertEntry id2 s2 = .ok (0, { s2 with errors := s2.errors ++ [(REDECLARATION, id2)] })) := by
  have he := InsertEntry_success id s hno hst hstk hattr
  obtain ⟨hA1, hA2, hA3, hA4⟩ := insertedOk_attrs id s
  rw [he]
  refine ⟨rfl, rfl, ?_, ?_, ?_, ?_, rfl, upd_same _ _ _, rfl, ?_⟩
  · simpa [okSnd] using hA2
  · simp only [okSnd]
    rw [hA1]; omega
  · simpa [okSnd] using hA4
  · simp only [okSnd]
    rw [hA3]; omega
  · exact fun id2 s2 h2 => InsertEntry_redecl id2 s2 h2

/-! ## Concrete states used by witnesses and counterexamples -/

/-- A state whose only stack frame is the dummy frame `(name 5, sym 0)`
that a failed lookup of name 5 leaves behind. -/
def Sdum : STState :=
  { initState with
    stack := upd initState.stack 1 ⟨false, 5, 0, true, false⟩, stack_top := 1 }

/-- A state with one declared symbol (slot 1, name 5, nesting 0) visible
in the current scope. -/
def Sone : STState :=
  { initState with
    stack := upd initState.stack 1 ⟨false, 5, 1, false, false⟩
    stack_top := 1
    st := upd initState.st 1 1
    attrarray := upd (upd initState.attrarray 1 ⟨NAME_ATTR, .int 5, 2⟩) 2
      ⟨NEST_ATTR, .int 0, 0⟩
    st_top := 1
    attr_top := 2 }

/-- A state whose symbol table already holds the maximum `ST_SIZE - 1 =
499` entries that fit before the overflow check fires. -/
def Sfull : STState := { initState with st_top := ST_SIZE - 1 }

/-! ## Claim C2 — `LookUp` -/

/-- Claim C2, counterexample: in a state whose only frame is a dummy frame
for name 5, `LookUp 5` matches that dummy frame (the C scan tests only
`marker` and `name`), sets its `used` flag and returns its `sym` 0 without
reporting `Undeclared` and without pushing anything — while the claim says
dummy frames never match, so this lookup would have to report `Undeclared`
and push a new dummy frame. -/
theorem C2_cex :
    (Sdum.stack 1).dummy = true ∧ (Sdum.stack 1).marker = false ∧
    (Sdum.stack 1).name = 5 ∧ Sdum.stack_top = 1 ∧
    okFst (LookUp 5 Sdum) = 0 ∧
    (okSnd Sdum (LookUp 5 Sdum)).errors = [] ∧
    (okSnd Sdum (LookUp 5 Sdum)).stack_top = 1 ∧
    ((okSnd Sdum (LookUp 5 Sdum)).stack 1).used = true := by
  refine ⟨rfl, rfl, rfl, rfl, rfl, rfl, rfl, rfl⟩

/-- Claim C2 (amended): `LookUp` scans the stack top-down and matches the
topmost non-marker frame whose `name` equals the id — regardless of the
`dummy` flag; on a match it sets that frame's `used` flag and returns its
`sym` (0 for a dummy frame, which silently suppresses a repeated
`Undeclared` report); only when no non-marker frame carries the name does
it report `Undeclared`, push a dummy frame and return 0. -/
theorem C2_lookup_spec (id : Int) (s : STState) (hstk : s.stack_top < STACK_SIZE - 1) :
    (∀ i, lookUpGo s id s.stack_top = some i →
      0 < i ∧ i ≤ s.stack_top ∧ (s.stack i).marker = false ∧ (s.stack i).name = id ∧
      (∀ j, i < j → j ≤ s.stack_top →
        (s.stack j).marker = true ∨ (s.stack j).name ≠ id) ∧
      LookUp id s = .ok ((s.stack i).st_ptr,
        { s with stack := upd s.stack i { s.stack i with used := true } })) ∧
    (lookUpGo s id s.stack_top = none →
      (∀ j, 0 < j → j ≤ s.stack_top →
        (s.stack j).marker = true ∨ (s.stack j).name ≠ id) ∧
      LookUp id s = .ok (0,
        { s with errors := s.errors ++ [(UNDECLARATION, id)],
                 stack_top := s.stack_top + 1,
                 stack := upd s.stack (s.stack_top + 1) ⟨false, id, 0, true, false⟩ })) := by
  constructor
  · intro i hi
    obtain ⟨h1, h2, h3, h4, h5⟩ := lookUpGo_some s id s.stack_top i hi
    exact ⟨h1, h2, h3, h4, h5, LookUp_found s id i hi⟩
  · intro hn
    exact ⟨lookUpGo_none s id s.stack_top hn, LookUp_missing s id hn hstk⟩

/-- Witness for `C2_lookup_spec` at concrete inputs: name 5 is found in
`Sone` at frame 1; name 9 is absent from `initState`. -/
theorem C2_lookup_spec_witness :
    LookUp 5 Sone = .ok ((Sone.stack 1).st_ptr,
      { Sone with stack := upd Sone.stack 1 { Sone.stack 1 with used := true } }) ∧
    LookUp 9 initState = .ok (0,
      { initState with errors := initState.errors ++ [(UNDECLARATION, 9)],
                       stack_top := initState.stack_top + 1,
                       stack := upd initState.stack (initState.stack_top + 1)
                         ⟨false, 9, 0, true, false⟩ }) :=
  ⟨((C2_lookup_spec 5 Sone (by decide)).1 1 (by decide)).2.2.2.2.2,
   ((C2_lookup_spec 9 initState (by decide)).2 (by decide)).2⟩

/-! ## Claim C3 — `error_msg` severity handling -/

/-- Claim C3, counterexample: at the concrete call `error_msg
STACK_OVERFLOW ABORT 0 0 initState` the process terminates, but with exit
status 0 (`exit(0)` in `tree.c` line 729), not a non-zero one: no non-zero
status exists for this abort. -/
theorem C3_cex :
    ¬ ∃ c l, c ≠ 0 ∧ error_msg STACK_OVERFLOW ABORT 0 0 initState
      = Except.error (c, l) := by
  rintro ⟨c, l, hc, h⟩
  have he : error_msg STACK_OVERFLOW ABORT 0 0 initState
      = Except.error (0, [(STACK_OVERFLOW, 0)]) := rfl
  rw [he] at h
  cases h
  exact hc rfl

/-- Claim C3 (amended): with severity `Abort` the reporter prints the
diagnostic and terminates the process immediately — with exit status 0,
because the C code calls `exit(0)`; with any other severity it returns to
the caller after printing. -/
theorem C3_error_msg_spec (ty a : Nat) (id : Int) (seq : Nat) (s : STState) :
    error_msg ty ABORT id seq s = .error (0, s.errors ++ [(ty, id)]) ∧
    (a ≠ ABORT → error_msg ty a id seq s
      = .ok { s with errors := s.errors ++ [(ty, id)] }) := by
  constructor
  · simp [error_msg]
  · intro h
    simp [error_msg, h]

/-- Witness for `C3_error_msg_spec`: an abort exits with status 0 after
printing, a `CONTINUE` report returns. -/
theorem C3_error_msg_spec_witness :
    error_msg ST_OVERFLOW ABORT 3 0 initState = .error (0, [(ST_OVERFLOW, 3)]) ∧
    error_msg ST_OVERFLOW CONTINUE 3 0 initState
      = .ok { initState with errors := [(ST_OVERFLOW, 3)] } :=
  ⟨(C3_error_msg_spec ST_OVERFLOW CONTINUE 3 0 initState).1,
   (C3_error_msg_spec ST_OVERFLOW CONTINUE 3 0 initState).2 (by decide)⟩

/-! ## Claim C4 — symbol-table capacity -/

/-- Claim C4, counterexample: `Sfull` holds 499 entries (`st_top = ST_SIZE
- 1 = 499`, entries numbered 1..499); inserting one more symbol — the
500th — already takes the overflow branch (`st_top >= ST_SIZE - 1` in
`InsertEntry`) and aborts with `STOverflow`, while the claim promises that
500 insertions succeed and only the 501st aborts. -/
theorem C4_cex :
    Sfull.st_top = ST_SIZE - 1 ∧
    InsertEntry 7 Sfull = .error (0, [(ST_OVERFLOW, 0)]) :=
  ⟨rfl, rfl⟩

/-- Claim C4 (amended): with `ST_SIZE = 500` and entries numbered from 1,
the table holds at most 499 symbols: an insert finding `st_top < 499`
proceeds and returns the new id, while an insert finding `st_top ≥ 499` —
the 500th symbol — reports `STOverflow` and aborts (with exit status 0).
So the 500th declaration aborts, not the 501st. -/
theorem C4_capacity (id : Int) (s : STState) (hno : LookUpHere id s = 0)
    (hstk : s.stack_top < STACK_SIZE - 1) (hattr : s.attr_top + 1 < ATTR_SIZE - 1) :
    (s.st_top ≥ ST_SIZE - 1 →
      InsertEntry id s = .error (0, s.errors ++ [(ST_OVERFLOW, 0)])) ∧
    (s.st_top < ST_SIZE - 1 →
      InsertEntry id s = .ok (s.st_top + 1, insertedOk id s)) :=
  ⟨fun h => InsertEntry_overflow id s hno h,
   fun h => InsertEntry_success id s hno h hstk hattr⟩

/-- Witness for `C4_capacity`: the 500th insert aborts, an insert into the
empty table succeeds. -/
theorem C4_capacity_witness :
    InsertEntry 9 Sfull = .error (0, [(ST_OVERFLOW, 0)]) ∧
    InsertEntry 5 initState = .ok (1, insertedOk 5 initState) :=
  ⟨(C4_capacity 9 Sfull (by decide) (by decide) (by decide)).1 (by decide),
   (C4_capacity 5 initState (by decide) (by decide) (by decide)).2 (by decide)⟩

/-! ## Claim C10 — redeclaration leaves the state unchanged -/

/-- Claim C10: on a name already bound in the current scope, `InsertEntry`
reports `Redeclaration`, returns 0, and leaves every component of the
state unchanged (the diagnostics list records the report; the C code
prints it). -/
theorem C10_redecl_no_change (id : Int) (s : STState) (h : LookUpHere id s ≠ 0) :
    okFst (InsertEntry id s) = 0 ∧
    (okSnd s (InsertEntry id s)).st = s.st ∧
    (okSnd s (InsertEntry id s)).attrarray = s.attrarray ∧
    (okSnd s (InsertEntry id s)).stack = s.stack ∧
    (okSnd s (InsertEntry id s)).st_top = s.st_top ∧
    (okSnd s (InsertEntry id s)).attr_top = s.attr_top ∧
    (okSnd s (InsertEntry id s)).stack_top = s.stack_top ∧
    (okSnd s (InsertEntry id s)).nesting = s.nesting ∧
    (okSnd s (InsertEntry id s)).errors = s.errors ++ [(REDECLARATION, id)] := by
  have he := InsertEntry_redecl id s h
  rw [he]
  exact ⟨rfl, rfl, rfl, rfl, rfl, rfl, rfl, rfl, rfl⟩

/-- Witness for `C10_redecl_no_change`: re-inserting name 5 into `Sone`. -/
theorem C10_redecl_no_change_witness :
    okFst (InsertEntry 5 Sone) = 0 ∧
    (okSnd Sone (InsertEntry 5 Sone)).st_top = Sone.st_top :=
  ⟨(C10_redecl_no_change 5 Sone (by decide)).1,
   (C10_redecl_no_change 5 Sone (by decide)).2.2.2.2.1⟩

/-- Witness for `C5_insert_entry`: inserting name 11 into `Sone`. -/
theorem C5_insert_entry_witness :
    okFst (InsertEntry 11 Sone) = 2 ∧
    GetAttr (okSnd Sone (InsertEntry 11 Sone)) 2 NAME_ATTR = .int 11 ∧
    GetAttr (okSnd Sone (InsertEntry 11 Sone)) 2 NEST_ATTR = .int 0 :=
  ⟨(C5_insert_entry 11 Sone (by decide) (by decide) (by decide) (by decide)).1,
   (C5_insert_entry 11 Sone (by decide) (by decide) (by decide) (by decide)).2.2.1,
   (C5_insert_entry 11 Sone (by decide) (by decide) (by decide) (by decide)).2.2.2.2.1⟩

/-! ## Claim C6 — `OpenBlock` / `CloseBlock` round trip

The operations an analyzer handler performs between a matched
`OpenBlock`/`CloseBlock` pair, as far as the scope stack is concerned,
are declarations (`InsertEntry`) and uses (`LookUp`). -/

inductive BlockOp where
  | ins (id : Int)
  | look (id : Int)
deriving Repr

def runOp (o : BlockOp) (s : STState) : Except Exit STState :=
  match o with
  | .ins id =>
    match InsertEntry id s with
    | .error e => .error e
    | .ok (_, s') => .ok s'
  | .look id =>
    match LookUp id s with
    | .error e => .error e
    | .ok (_, s') => .ok s'

def runOps : List BlockOp → STState → Except Exit STState
  | [], s => .ok s
  | o :: t, s =>
    match runOp o s with
    | .error e => .error e
    | .ok s' => runOps t s'

/-- `OpenBlock` followed by a sequence of declarations and lookups — the
body of a block, up to the matching `CloseBlock`. -/
def runBlock (s : STState) (ops : List BlockOp) : Except Exit STState :=
  match OpenBlock s with
  | .error e => .error e
  | .ok s1 => runOps ops s1

/-- What a state reached inside a block opened over `s0` looks like: the
nesting is one deeper, the marker pushed by `OpenBlock` sits at
`s0.stack_top + 1` with no marker above it, and the frames at or below
`s0.stack_top` are intact except that lookups may have set `used` flags. -/
structure BlockInv (s0 s : STState) : Prop where
  top_lt : s0.stack_top + 1 ≤ s.stack_top
  nest : s.nesting = s0.nesting + 1
  marker_at : (s.stack (s0.stack_top + 1)).marker = true
  no_marker_above : ∀ j, s0.stack_top + 1 < j → j ≤ s.stack_top →
    (s.stack j).marker = false
  below : ∀ j, j ≤ s0.stack_top → s.stack j = s0.stack j ∨
    s.stack j = { s0.stack j with used := true }

theorem OpenBlock_inv (s0 s : STState) (h : OpenBlock s0 = .ok s) : BlockInv s0 s := by
  by_cases hc : s0.stack_top ≥ STACK_SIZE - 1
  · simp [OpenBlock, Push, hc, error_msg, ABORT] at h
  · simp only [OpenBlock, Push] at h
    rw [if_neg (by simpa using hc)] at h
    cases h
    refine ⟨le_refl _, rfl, by simp, ?_, ?_⟩
    · intro j h1 h2
      simp only at h1 h2
      omega
    · intro j hj
      left
      exact upd_ne _ _ _ _ (by omega)

theorem SetAttr_ok_proj (s : STState) (p k : Nat) (v : AttrVal) (s' : STState)
    (h : SetAttr s p k v = .ok s') :
    s'.stack = s.stack ∧ s'.stack_top = s.stack_top ∧ s'.nesting = s.nesting ∧
    s'.st_top = s.st_top ∧ s'.errors = s.errors := by
  simp only [SetAttr] at h
  split at h
  · cases h; exact ⟨rfl, rfl, rfl, rfl, rfl⟩
  · split at h
    · simp [error_msg, ABORT] at h
    · split at h
      · cases h; exact ⟨rfl, rfl, rfl, rfl, rfl⟩
      · cases h; exact ⟨rfl, rfl, rfl, rfl, rfl⟩

theorem Push_ok (m : Bool) (n : Int) (p : Nat) (d : Bool) (s s' : STState)
    (h : Push m n p d s = .ok s') :
    s' = { s with stack_top := s.stack_top + 1,
                  stack := upd s.stack (s.stack_top + 1) ⟨m, n, p, d, false⟩ } := by
  simp only [Push] at h
  split at h
  · simp [error_msg, ABORT] at h
  · cases h; rfl

/-- The two stack effects a terminating `InsertEntry` can have: none
(redeclaration) or the push of the new non-marker, non-dummy frame. -/
theorem InsertEntry_ok_stack (id : Int) (s s' : STState) (r : Nat)
    (h : InsertEntry id s = .ok (r, s')) :
    (s'.stack = s.stack ∧ s'.stack_top = s.stack_top ∧ s'.nesting = s.nesting) ∨
    (s'.stack = upd s.stack (s.stack_top + 1) ⟨false, id, s.st_top + 1, false, false⟩ ∧
     s'.stack_top = s.stack_top + 1 ∧ s'.nesting = s.nesting) := by
  simp only [InsertEntry] at h
  split at h
  · simp only [error_msg, CONTINUE, ABORT] at h
    rw [if_neg (by norm_num)] at h
    cases h
    exact Or.inl ⟨rfl, rfl, rfl⟩
  · split at h
    · simp [error_msg, ABORT] at h
    · split at h
      · cases h
      · rename_i s3 he3
        split at h
        · cases h
        · rename_i s4 he4
          split at h
          · cases h
          · rename_i s5 he5
            cases h
            obtain ⟨e1, e2, e3, e4, _⟩ := SetAttr_ok_proj _ _ _ _ _ he3
            obtain ⟨f1, f2, f3, f4, _⟩ := SetAttr_ok_proj _ _ _ _ _ he4
            have hp := Push_ok _ _ _ _ _ _ he5
            right
            subst hp
            constructor
            · simp [f1, e1, f2, e2]
            constructor
            · simp [f2, e2]
            · simp [f3, e3]

theorem LookUp_ok_stack (id : Int) (s s' : STState) (r : Nat)
    (h : LookUp id s = .ok (r, s')) :
    (∃ i, 0 < i ∧ i ≤ s.stack_top ∧ (s.stack i).marker = false ∧
      s'.stack = upd s.stack i { s.stack i with used := true } ∧
      s'.stack_top = s.stack_top ∧ s'.nesting = s.nesting) ∨
    (s'.stack = upd s.stack (s.stack_top + 1) ⟨false, id, 0, true, false⟩ ∧
     s'.stack_top = s.stack_top + 1 ∧ s'.nesting = s.nesting) := by
  cases hg : lookUpGo s id s.stack_top with
  | some i =>
    rw [LookUp_found s id i hg] at h
    cases h
    obtain ⟨h1, h2, h3, _, _⟩ := lookUpGo_some s id s.stack_top i hg
    exact Or.inl ⟨i, h1, h2, h3, rfl, rfl, rfl⟩
  | none =>
    by_cases hstk : s.stack_top ≥ STACK_SIZE - 1
    · have he : LookUp id s
          = .error (0, s.errors ++ [(UNDECLARATION, id), (STACK_OVERFLOW, 0)]) := by
        simp [LookUp, hg, error_msg, CONTINUE, ABORT, Push, hstk]
      rw [he] at h
      cases h
    · rw [LookUp_missing s id hg (by omega)] at h
      cases h
      exact Or.inr ⟨rfl, rfl, rfl⟩

/-- A state transition that leaves the scope stack untouched preserves
the in-block invariant. -/
theorem BlockInv.same (s0 s s' : STState) (hinv : BlockInv s0 s)
    (h1 : s'.stack = s.stack) (h2 : s'.stack_top = s.stack_top)
    (h3 : s'.nesting = s.nesting) : BlockInv s0 s' := by
  refine ⟨?_, ?_, ?_, ?_, ?_⟩
  · rw [h2]; exact hinv.top_lt
  · rw [h3]; exact hinv.nest
  · rw [h1]; exact hinv.marker_at
  · intro j hj1 hj2
    rw [h2] at hj2
    rw [h1]
    exact hinv.no_marker_above j hj1 hj2
  · intro j hj
    rw [h1]
    exact hinv.below j hj

/-- Pushing a non-marker frame on top preserves the in-block invariant. -/
theorem BlockInv.push (s0 s s' : STState) (hinv : BlockInv s0 s) (fr : StackEntry)
    (hfr : fr.marker = false)
    (h1 : s'.stack = upd s.stack (s.stack_top + 1) fr)
    (h2 : s'.stack_top = s.stack_top + 1) (h3 : s'.nesting = s.nesting) :
    BlockInv s0 s' := by
  have hml := hinv.top_lt
  refine ⟨?_, ?_, ?_, ?_, ?_⟩
  · rw [h2]; omega
  · rw [h3]; exact hinv.nest
  · rw [h1, upd_ne _ _ _ _ (by omega)]
    exact hinv.marker_at
  · intro j hj1 hj2
    rw [h2] at hj2
    rw [h1]
    rcases Nat.lt_or_ge j (s.stack_top + 1) with hj | hj
    · rw [upd_ne _ _ _ _ (by omega)]
      exact hinv.no_marker_above j hj1 (by omega)
    · have hje : j = s.stack_top + 1 := by omega
      rw [hje, upd_same]
      exact hfr
  · intro j hj
    rw [h1, upd_ne _ _ _ _ (by omega)]
    exact hinv.below j hj

/-- Setting the `used` flag of a non-marker frame preserves the in-block
invariant. -/
theorem BlockInv.setUsed (s0 s s' : STState) (hinv : BlockInv s0 s) (i : Nat)
    (himk : (s.stack i).marker = false)
    (h1 : s'.stack = upd s.stack i { s.stack i with used := true })
    (h2 : s'.stack_top = s.stack_top) (h3 : s'.nesting = s.nesting) :
    BlockInv s0 s' := by
  have hine : s0.stack_top + 1 ≠ i := by
    intro hh
    rw [← hh] at himk
    rw [hinv.marker_at] at himk
    cases himk
  refine ⟨?_, ?_, ?_, ?_, ?_⟩
  · rw [h2]; exact hinv.top_lt
  · rw [h3]; exact hinv.nest
  · rw [h1, upd_ne _ _ _ _ hine]
    exact hinv.marker_at
  · intro j hj1 hj2
    rw [h2] at hj2
    rw [h1]
    by_cases hji : j = i
    · rw [hji, upd_same]
      exact himk
    · rw [upd_ne _ _ _ _ hji]
      exact hinv.no_marker_above j hj1 hj2
  · intro j hj
    rw [h1]
    by_cases hji : j = i
    · rw [hji, upd_same]
      rcases hinv.below i (hji ▸ hj) with hc | hc
      · right; rw [hc]
      · right; rw [hc]
  
    · rw [upd_ne _ _ _ _ hji]
      exact hinv.below j hj

theorem runOp_inv (s0 : STState) (o : BlockOp) (s s' : STState)
    (hinv : BlockInv s0 s) (h : runOp o s = .ok s') : BlockInv s0 s' := by
  cases o with
  | ins id =>
    cases he : InsertEntry id s with
    | error e => simp only [runOp, he] at h; cases h
    | ok pr =>
      obtain ⟨r, s1⟩ := pr
      simp only [runOp, he] at h
      cases h
      rcases InsertEntry_ok_stack id s s' r he with ⟨h1, h2, h3⟩ | ⟨h1, h2, h3⟩
      · exact BlockInv.same s0 s s' hinv h1 h2 h3
      · exact BlockInv.push s0 s s' hinv _ rfl h1 h2 h3
  | look id =>
    cases he : LookUp id s with
    | error e => simp only [runOp, he] at h; cases h
    | ok pr =>
      obtain ⟨r, s1⟩ := pr
      simp only [runOp, he] at h
      cases h
      rcases LookUp_ok_stack id s s' r he with ⟨i, _, _, himk, h1, h2, h3⟩ | ⟨h1, h2, h3⟩
      · exact BlockInv.setUsed s0 s s' hinv i himk h1 h2 h3
      · exact BlockInv.push s0 s s' hinv _ rfl h1 h2 h3

theorem runOps_inv (s0 : STState) :
    ∀ (ops : List BlockOp) (s s' : STState), BlockInv s0 s →
      runOps ops s = .ok s' → BlockInv s0 s' := by
  intro ops
  induction ops with
  | nil =>
    intro s s' hinv h
    simp only [runOps] at h
    cases h
    exact hinv
  | cons o t ih =>
    intro s s' hinv h
    simp only [runOps] at h
    cases he : runOp o s with
    | error e => rw [he] at h; cases h
    | ok s1 =>
      rw [he] at h
      exact ih s1 s' (runOp_inv s0 o s s1 hinv he) h

/-- The `CloseBlock` scan lands exactly on the topmost marker. -/
theorem closeBlockGo_marker (s : STState) (m : Nat)
    (hm : (s.stack m).marker = true) (h0 : 0 < m) :
    ∀ n, m ≤ n → (∀ j, m < j → j ≤ n → (s.stack j).marker = false) →
      closeBlockGo s n = m := by
  intro n
  induction n with
  | zero =>
    intro h1 _
    simp only [closeBlockGo]
    omega
  | succ n ih =>
    intro h1 h2
    rcases Nat.lt_or_ge n m with hlt | hge
    · have hme : m = n + 1 := by omega
      rw [closeBlockGo, ← hme, hm]
      simp [hme]
    · have hmf : (s.stack (n + 1)).marker = false := h2 (n + 1) (by omega) (le_refl _)
      rw [closeBlockGo, hmf]
      simp only [Bool.false_eq_true, if_false]
      exact ih hge fun j hj1 hj2 => h2 j hj1 (by omega)

/-- Claim C6, counterexample: run `OpenBlock` over `Sone`, look up name 5
(it resolves to the frame pushed before the block and sets its `used`
flag), and close the block.  The stack size and nesting are restored, but
the stack contents are not: the surviving frame's `used` flag changed
from `false` to `true`, so the scope stack does not return to its
pre-open contents as the claim states. -/
theorem C6_cex :
    (CloseBlock (okState Sone (runBlock Sone [BlockOp.look 5]))).stack_top
      = Sone.stack_top ∧
    (CloseBlock (okState Sone (runBlock Sone [BlockOp.look 5]))).nesting
      = Sone.nesting ∧
    (Sone.stack 1).used = false ∧
    ((CloseBlock (okState Sone (runBlock Sone [BlockOp.look 5]))).stack 1).used
      = true ∧
    (CloseBlock (okState Sone (runBlock Sone [BlockOp.look 5]))).stack 1
      ≠ Sone.stack 1 := by
  refine ⟨rfl, rfl, rfl, rfl, by decide⟩

/-- Claim C6 (amended): for every state and every sequence of
declarations and lookups run between a matched `OpenBlock`/`CloseBlock`
pair, the close restores `stack_top` and the nesting counter, and every
surviving frame keeps its `marker`, `name`, `sym` and `dummy` fields —
but its `used` flag may have been switched on by a lookup during the
block, so the contents are restored only up to `used` flags.  Each frame
pushed by a declaration during the block (performed at nesting depth one
deeper than the pre-open state) carries a symbol whose `Nest` attribute
equals that push-time depth. -/
theorem C6_block_roundtrip (s : STState) (ops : List BlockOp)
    (hok : (runBlock s ops).isOk = true) :
    (CloseBlock (okState s (runBlock s ops))).stack_top = s.stack_top ∧
    (CloseBlock (okState s (runBlock s ops))).nesting = s.nesting ∧
    (∀ j, j ≤ s.stack_top →
      (CloseBlock (okState s (runBlock s ops))).stack j = s.stack j ∨
      (CloseBlock (okState s (runBlock s ops))).stack j
        = { s.stack j with used := true }) ∧
    (∀ id2 t, t.nesting = s.nesting + 1 → LookUpHere id2 t = 0 →
      t.st_top < ST_SIZE - 1 → t.stack_top < STACK_SIZE - 1 →
      t.attr_top + 1 < ATTR_SIZE - 1 →
      (okSnd t (InsertEntry id2 t)).stack (t.stack_top + 1)
          = ⟨false, id2, t.st_top + 1, false, false⟩ ∧
        GetAttr (okSnd t (InsertEntry id2 t)) (t.st_top + 1) NEST_ATTR
          = .int (s.nesting + 1)) := by
  obtain ⟨s1, he⟩ : ∃ s1, runBlock s ops = .ok s1 := by
    cases hr : runBlock s ops with
    | error e => rw [hr] at hok; cases hok
    | ok s1 => exact ⟨s1, rfl⟩
  have hinv : BlockInv s s1 := by
    unfold runBlock at he
    cases ho : OpenBlock s with
    | error e => rw [ho] at he; cases he
    | ok sOpen =>
      rw [ho] at he
      exact runOps_inv s ops sOpen s1 (OpenBlock_inv s sOpen ho) he
  have hclose : closeBlockGo s1 s1.stack_top = s.stack_top + 1 :=
    closeBlockGo_marker s1 (s.stack_top + 1) hinv.marker_at (by omega)
      s1.stack_top hinv.top_lt hinv.no_marker_above
  rw [he]
  have htop : (CloseBlock (okState s (Except.ok s1))).stack_top = s.stack_top := by
    simp only [okState, CloseBlock, hclose]
    omega
  refine ⟨htop, ?_, ?_, ?_⟩
  · simp only [okState, CloseBlock]
    rw [hinv.nest]
    omega
  · intro j hj
    simp only [okState, CloseBlock]
    exact hinv.below j hj
  · intro id2 t hn hhere h1 h2 h3
    rw [InsertEntry_success id2 t hhere h1 h2 h3]
    constructor
    · simp only [okSnd, insertedOk]
      exact upd_same _ _ _
    · have := (insertedOk_attrs id2 t).2.2.2
      simp only [okSnd]
      rw [this, hn]

def Snest : STState := { initState with nesting := 1 }

/-- Witness for `C6_block_roundtrip`: a lookup and a declaration inside a
block over `Sone`; the nested-insert clause instantiated at `Snest`. -/
theorem C6_block_roundtrip_witness :
    (CloseBlock (okState Sone (runBlock Sone [BlockOp.look 5, BlockOp.ins 7]))).stack_top
      = Sone.stack_top ∧
    GetAttr (okSnd Snest (InsertEntry 9 Snest)) (Snest.st_top + 1) NEST_ATTR
      = .int (Sone.nesting + 1) :=
  ⟨(C6_block_roundtrip Sone [BlockOp.look 5, BlockOp.ins 7] (by decide)).1,
   ((C6_block_roundtrip Sone [BlockOp.look 5, BlockOp.ins 7] (by decide)).2.2.2
      9 Snest (by decide) (by decide) (by decide) (by decide) (by decide)).2⟩

/-! ## Claim C9 — `SetAttr` keeps attribute lists sorted and duplicate-free

The per-slot attribute list is the chain of `attrarray` cells reached
from `st[p]` by following `next_attr`.  `ChainIs s i l` says that `l` is
exactly the (finite, 0-terminated) list of cell indices of the chain
starting at `i`, with every cell inside the allocated pool. -/

inductive ChainIs (s : STState) : Nat → List Nat → Prop where
  | nil : ChainIs s 0 []
  | cons (i : Nat) (l : List Nat) (h0 : i ≠ 0) (hle : i ≤ s.attr_top)
      (ht : ChainIs s (s.attrarray i).next_attr l) : ChainIs s i (i :: l)

/-- The attribute kinds along a chain, in chain order. -/
def kindsOf (s : STState) (l : List Nat) : List Nat :=
  l.map fun j => (s.attrarray j).attr_num

/-- The (kind, value) pairs along a chain, in chain order. -/
def pairsOf (s : STState) (l : List Nat) : List (Nat × AttrVal) :=
  l.map fun j => ((s.attrarray j).attr_num, (s.attrarray j).attr_val)

/-- Sorted-insert-or-overwrite of one attribute into an association list
ordered by ascending kind: the specification of `SetAttr`'s effect. -/
def insertKV (k : Nat) (v : AttrVal) : List (Nat × AttrVal) → List (Nat × AttrVal)
  | [] => [(k, v)]
  | (k0, v0) :: t =>
    if k0 = k then (k, v) :: t
    else if k0 < k then (k0, v0) :: insertKV k v t
    else (k, v) :: (k0, v0) :: t

/-- Kind-comparison between two cells, the pairwise order of a sorted
chain. -/
def RK (s : STState) (a b : Nat) : Prop :=
  (s.attrarray a).attr_num < (s.attrarray b).attr_num

theorem pairwise_iff_kinds (s : STState) (l : List Nat) :
    l.Pairwise (RK s) ↔ (kindsOf s l).Sorted (· < ·) := by
  rw [kindsOf, List.Sorted, List.pairwise_map]
  exact Iff.rfl

theorem pairsOf_fst (s : STState) (l : List Nat) :
    (pairsOf s l).map Prod.fst = kindsOf s l := by
  simp [pairsOf, kindsOf]

theorem ChainIs.mem_facts {s : STState} :
    ∀ {i : Nat} {l : List Nat}, ChainIs s i l →
      ∀ j ∈ l, j ≠ 0 ∧ j ≤ s.attr_top := by
  intro i l h
  induction h with
  | nil => intro j hj; cases hj
  | cons i l h0 hle ht ih =>
    intro j hj
    rcases List.mem_cons.mp hj with hj | hj
    · subst hj; exact ⟨h0, hle⟩
    · exact ih j hj

/-- The head of a chain list is the chain's start index; an empty chain
starts at 0. -/
theorem ChainIs.start_eq {s : STState} :
    ∀ {i : Nat} {l : List Nat}, ChainIs s i l →
      (l = [] → i = 0) ∧ (∀ a t, l = a :: t → i = a) := by
  intro i l h
  cases h with
  | nil =>
    refine ⟨fun _ => rfl, ?_⟩
    intro a t ha
    cases ha
  | cons i l h0 hle ht =>
    constructor
    · intro he
      cases he
    · intro a t ha
      cases ha
      rfl

theorem chain_nodup {s : STState} {l : List Nat}
    (hs : l.Pairwise (RK s)) : l.Nodup := by
  have : l.Pairwise (fun a b : Nat => a ≠ b) := by
    refine hs.imp ?_
    intro a b hab
    intro he
    rw [he] at hab
    exact lt_irrefl _ hab
  exact this

theorem chain_length_le {s : STState} {i : Nat} {l : List Nat}
    (h : ChainIs s i l) (hnd : l.Nodup) : l.length ≤ s.attr_top := by
  have h1 : l.toFinset ⊆ Finset.Icc 1 s.attr_top := by
    intro j hj
    rw [List.mem_toFinset] at hj
    obtain ⟨hj0, hjle⟩ := h.mem_facts j hj
    exact Finset.mem_Icc.mpr ⟨by omega, hjle⟩
  calc l.length = l.toFinset.card := (List.toFinset_card_of_nodup hnd).symm
    _ ≤ (Finset.Icc 1 s.attr_top).card := Finset.card_le_card h1
    _ = s.attr_top := by rw [Nat.card_Icc]; omega

/-- A chain survives a state change that keeps the pool at least as large
and does not move any of its cells' `next_attr` links. -/
theorem ChainIs.of_untouched {s s' : STState} :
    ∀ {i : Nat} {l : List Nat}, ChainIs s i l →
      (∀ j ∈ l, (s'.attrarray j).next_attr = (s.attrarray j).next_attr) →
      s.attr_top ≤ s'.attr_top → ChainIs s' i l := by
  intro i l h
  induction h with
  | nil => intro _ _; exact ChainIs.nil
  | cons i l h0 hle ht ih =>
    intro hc htop
    refine ChainIs.cons i l h0 (by omega) ?_
    rw [hc i (List.mem_cons_self i l)]
    exact ih (fun j hj => hc j (List.mem_cons_of_mem i hj)) htop

/-- What the `IsAttr` walk computes on a sorted chain: 0 when the kind is
absent, and the unique cell carrying the kind when it is present. -/
theorem isAttrGo_spec (s : STState) (k : Nat) :
    ∀ (l : List Nat) (i : Nat) (fuel : Nat), ChainIs s i l →
      l.Pairwise (RK s) → l.length ≤ fuel →
      ((∀ j ∈ l, (s.attrarray j).attr_num ≠ k) → isAttrGo s k fuel i = 0) ∧
      (∀ j ∈ l, (s.attrarray j).attr_num = k → isAttrGo s k fuel i = j) := by
  intro l
  induction l with
  | nil =>
    intro i fuel hch _ _
    obtain ⟨hs0, _⟩ := hch.start_eq
    rw [hs0 rfl]
    exact ⟨fun _ => isAttrGo_zero s k fuel, fun j hj => by cases hj⟩
  | cons a t ih =>
    intro i fuel hch hp hlen
    cases hch with
    | cons _ _ h0 hle ht =>
      cases fuel with
      | zero => simp at hlen
      | succ f =>
        rw [isAttrGo, if_neg h0]
        have hptail := hp.tail
        have hphead := List.pairwise_cons.mp hp |>.1
        by_cases he : (s.attrarray a).attr_num = k
        · rw [if_pos he]
          constructor
          · intro hall
            exact absurd he (hall a (List.mem_cons_self a t))
          · intro j hj hjk
            rcases List.mem_cons.mp hj with hj | hj
            · rw [hj]
            · exfalso
              have := hphead j hj
              rw [RK, he, hjk] at this
              exact lt_irrefl _ this
        · rw [if_neg he]
          by_cases hg : (s.attrarray a).attr_num > k
          · rw [if_pos hg]
            constructor
            · intro _; rfl
            · intro j hj hjk
              rcases List.mem_cons.mp hj with hj | hj
              · exact absurd (hj ▸ hjk) he
              · exfalso
                have := hphead j hj
                rw [RK, hjk] at this
                omega
          · rw [if_neg hg]
            have hrec := ih (s.attrarray a).next_attr f ht hptail
              (by simp at hlen; omega)
            constructor
            · intro hall
              exact hrec.1 fun j hj => hall j (List.mem_cons_of_mem a hj)
            · intro j hj hjk
              rcases List.mem_cons.mp hj with hj | hj
              · exact absurd (hj ▸ hjk) he
              · exact hrec.2 j hj hjk

/-- Head of a chain list, with 0 (the null index) for the empty list. -/
def headOr0 : List Nat → Nat
  | [] => 0
  | j :: _ => j

/-- Split a chain list into the prefix of cells whose kind is below `k`
and the rest — the walk performed by `SetAttr` before splicing. -/
def splitLt (s : STState) (k : Nat) : List Nat → List Nat × List Nat
  | [] => ([], [])
  | j :: t =>
    if (s.attrarray j).attr_num < k then
      let p := splitLt s k t
      (j :: p.1, p.2)
    else ([], j :: t)

theorem splitLt_append (s : STState) (k : Nat) :
    ∀ l : List Nat, (splitLt s k l).1 ++ (splitLt s k l).2 = l := by
  intro l
  induction l with
  | nil => rfl
  | cons j t ih =>
    rw [splitLt]
    by_cases hj : (s.attrarray j).attr_num < k
    · simp only [if_pos hj, List.cons_append, ih]
    · simp only [if_neg hj, List.nil_append]

theorem splitLt_fst_lt (s : STState) (k : Nat) :
    ∀ l : List Nat, ∀ j ∈ (splitLt s k l).1, (s.attrarray j).attr_num < k := by
  intro l
  induction l with
  | nil => intro j hj; cases hj
  | cons a t ih =>
    intro j hj
    rw [splitLt] at hj
    by_cases ha : (s.attrarray a).attr_num < k
    · rw [if_pos ha] at hj
      rcases List.mem_cons.mp hj with hj | hj
      · rw [hj]; exact ha
      · exact ih j hj
    · rw [if_neg ha] at hj
      cases hj

theorem splitLt_snd_gt (s : STState) (k : Nat) :
    ∀ l : List Nat, l.Pairwise (RK s) →
      (∀ j ∈ l, (s.attrarray j).attr_num ≠ k) →
      ∀ j ∈ (splitLt s k l).2, (s.attrarray j).attr_num > k := by
  intro l
  induction l with
  | nil => intro _ _ j hj; cases hj
  | cons a t ih =>
    intro hp hne j hj
    rw [splitLt] at hj
    by_cases ha : (s.attrarray a).attr_num < k
    · rw [if_pos ha] at hj
      exact ih hp.tail (fun m hm => hne m (List.mem_cons_of_mem a hm)) j hj
    · rw [if_neg ha] at hj
      have hage : (s.attrarray a).attr_num > k := by
        have := hne a (List.mem_cons_self a t)
        omega
      rcases List.mem_cons.mp hj with hj | hj
      · rw [hj]; exact hage
      · have := (List.pairwise_cons.mp hp).1 j hj
        rw [RK] at this
        omega

/-- What the `SetAttr` predecessor walk computes on a sorted chain that
does not contain the kind: the pair (last cell with a smaller kind, first
cell with a larger kind), with `none`/0 at the ends of the chain. -/
theorem setAttrGo_spec (s : STState) (k : Nat) :
    ∀ (l : List Nat) (i : Nat) (fuel : Nat) (pr : Option Nat), ChainIs s i l →
      l.length ≤ fuel →
      setAttrGo s k fuel pr i =
        (if h : (splitLt s k l).1 = [] then (pr, i)
         else (some ((splitLt s k l).1.getLast h), headOr0 (splitLt s k l).2)) := by
  intro l
  induction l with
  | nil =>
    intro i fuel pr hch _
    obtain ⟨hs0, _⟩ := hch.start_eq
    rw [hs0 rfl, setAttrGo_zero]
    rfl
  | cons a t ih =>
    intro i fuel pr hch hlen
    cases hch with
    | cons _ _ h0 hle ht =>
      cases fuel with
      | zero => simp at hlen
      | succ f =>
        rw [setAttrGo, if_neg h0, splitLt]
        by_cases ha : (s.attrarray a).attr_num < k
        · rw [if_pos ha]
          simp only [if_pos ha]
          have hrec := ih (s.attrarray a).next_attr f (some a) ht
            (by simp at hlen; omega)
          rw [hrec]
          by_cases hL : (splitLt s k t).1 = []
          · rw [dif_pos hL]
            have hcons : (a :: (splitLt s k t).1 : List Nat) ≠ [] := by
              simp
            rw [dif_neg hcons]
            have hlast : (a :: (splitLt s k t).1).getLast hcons = a := by
              simp [hL]
            rw [hlast]
            have hsnd : (splitLt s k t).2 = t := by
              have := splitLt_append s k t
              rw [hL] at this
              simpa using this
            have hnext : (s.attrarray a).next_attr = headOr0 (splitLt s k t).2 := by
              rw [hsnd]
              obtain ⟨he0, hhd⟩ := ht.start_eq
              cases t with
              | nil => rw [he0 rfl]; rfl
              | cons b t2 => rw [hhd b t2 rfl]; rfl
            rw [hnext]
          · rw [dif_neg hL]
            have hcons : (a :: (splitLt s k t).1 : List Nat) ≠ [] := by
              simp
            rw [dif_neg hcons]
            rw [List.getLast_cons hL]
        · rw [if_neg ha]
          simp only [if_neg ha]
          simp

theorem insertKV_append_lt (k : Nat) (v : AttrVal) :
    ∀ (L R : List (Nat × AttrVal)),
      (∀ p ∈ L, p.1 < k) → (∀ p ∈ R, p.1 > k) →
      insertKV k v (L ++ R) = L ++ (k, v) :: R := by
  intro L
  induction L with
  | nil =>
    intro R _ hR
    cases R with
    | nil => rfl
    | cons p t =>
      obtain ⟨k0, v0⟩ := p
      have := hR (k0, v0) (List.mem_cons_self _ _)
      simp only [List.nil_append, insertKV]
      rw [if_neg (by omega), if_neg (by omega)]
  | cons p L ih =>
    intro R hL hR
    obtain ⟨k0, v0⟩ := p
    have h0 := hL (k0, v0) (List.mem_cons_self _ _)
    simp only [List.cons_append, insertKV]
    rw [if_neg (by omega), if_pos h0]
    simp only [List.append_eq]
    rw [ih R (fun q hq => hL q (List.mem_cons_of_mem _ hq)) hR]

theorem insertKV_overwrite (k : Nat) (v : AttrVal) :
    ∀ (L R : List (Nat × AttrVal)) (v0 : AttrVal),
      (∀ p ∈ L, p.1 < k) →
      insertKV k v (L ++ (k, v0) :: R) = L ++ (k, v) :: R := by
  intro L
  induction L with
  | nil =>
    intro R v0 _
    simp [List.nil_append, insertKV]
  | cons p L ih =>
    intro R v0 hL
    obtain ⟨k0, v1⟩ := p
    have h0 := hL (k0, v1) (List.mem_cons_self _ _)
    simp only [List.cons_append, insertKV]
    rw [if_neg (by omega), if_pos h0]
    simp only [List.append_eq]
    rw [ih R v0 (fun q hq => hL q (List.mem_cons_of_mem _ hq))]

theorem insertKV_fst_mem (k : Nat) (v : AttrVal) :
    ∀ (l : List (Nat × AttrVal)) (p : Nat × AttrVal), p ∈ insertKV k v l →
      p.1 = k ∨ p.1 ∈ l.map Prod.fst := by
  intro l
  induction l with
  | nil =>
    intro p hp
    simp only [insertKV, List.mem_singleton] at hp
    left; rw [hp]
  | cons q t ih =>
    intro p hp
    obtain ⟨k0, v0⟩ := q
    simp only [insertKV] at hp
    by_cases he : k0 = k
    · rw [if_pos he] at hp
      rcases List.mem_cons.mp hp with hp | hp
      · left; rw [hp]
      · right
        simp only [List.map_cons, List.mem_cons]
        right
        exact List.mem_map_of_mem Prod.fst hp
    · rw [if_neg he] at hp
      by_cases hlt : k0 < k
      · rw [if_pos hlt] at hp
        rcases List.mem_cons.mp hp with hp | hp
        · right; rw [hp]; simp
        · rcases ih p hp with h | h
          · left; exact h
          · right
            simp only [List.map_cons, List.mem_cons]
            right; exact h
      · rw [if_neg hlt] at hp
        rcases List.mem_cons.mp hp with hp | hp
        · left; rw [hp]
        · right
          simpa using List.mem_map_of_mem Prod.fst hp

/-- `insertKV` preserves strict sortedness of the kinds. -/
theorem insertKV_sorted (k : Nat) (v : AttrVal) :
    ∀ (l : List (Nat × AttrVal)), ((l.map Prod.fst).Sorted (· < ·)) →
      ((insertKV k v l).map Prod.fst).Sorted (· < ·) := by
  intro l
  induction l with
  | nil => intro _; simp [insertKV, List.Sorted]
  | cons q t ih =>
    intro hs
    obtain ⟨k0, v0⟩ := q
    simp only [List.map_cons, List.Sorted, List.pairwise_cons] at hs
    obtain ⟨hhead, htail⟩ := hs
    simp only [insertKV]
    by_cases he : k0 = k
    · rw [if_pos he]
      simp only [List.map_cons, List.Sorted, List.pairwise_cons]
      exact ⟨fun b hb => he ▸ hhead b hb, htail⟩
    · rw [if_neg he]
      by_cases hlt : k0 < k
      · rw [if_pos hlt]
        simp only [List.map_cons, List.Sorted, List.pairwise_cons]
        refine ⟨?_, ih htail⟩
        intro b hb
        obtain ⟨p, hp, hpb⟩ := List.mem_map.mp hb
        rcases insertKV_fst_mem k v t p hp with h | h
        · rw [← hpb, h]; exact hlt
        · rw [← hpb]
          exact hhead p.1 h
      · rw [if_neg hlt]
        simp only [List.map_cons, List.Sorted, List.pairwise_cons]
        refine ⟨?_, hhead, htail⟩
        intro b hb
        rcases List.mem_cons.mp hb with hb | hb
        · rw [hb]; omega
        · have := hhead b hb
          omega

theorem pairsOf_congr (s s' : STState) (l : List Nat)
    (h : ∀ j ∈ l, (s'.attrarray j).attr_num = (s.attrarray j).attr_num ∧
      (s'.attrarray j).attr_val = (s.attrarray j).attr_val) :
    pairsOf s' l = pairsOf s l := by
  induction l with
  | nil => rfl
  | cons a t ih =>
    have ha := h a (List.mem_cons_self a t)
    simp only [pairsOf, List.map_cons]
    rw [ha.1, ha.2]
    have := ih fun j hj => h j (List.mem_cons_of_mem a hj)
    simp only [pairsOf] at this
    rw [this]

theorem pairsOf_append (s : STState) (l1 l2 : List Nat) :
    pairsOf s (l1 ++ l2) = pairsOf s l1 ++ pairsOf s l2 := by
  simp [pairsOf]

/-- Splicing a fresh cell `T` after the prefix `L` of a chain: relinking
the last cell of `L` to `T` and pointing `T` at the old continuation
yields the chain `L ++ T :: R`. -/
theorem chain_relink (s s' : STState) (T : Nat)
    (htop : s'.attr_top = T) (hT : s.attr_top < T) (hT0 : T ≠ 0) :
    ∀ (L : List Nat) (hL : L ≠ []) (i : Nat) (R : List Nat),
      ChainIs s i (L ++ R) →
      (∀ j ∈ L.dropLast, s'.attrarray j = s.attrarray j) →
      (∀ j ∈ R, s'.attrarray j = s.attrarray j) →
      (s'.attrarray (L.getLast hL)).next_attr = T →
      (s'.attrarray T).next_attr = headOr0 R →
      ChainIs s' i (L ++ T :: R) := by
  intro L
  induction L with
  | nil => intro hL; exact absurd rfl hL
  | cons a t ih =>
    intro _ i R hch hdrop hR hlast hTnext
    rw [List.cons_append] at hch
    cases hch with
    | cons _ _ h0 hle ht =>
      rw [List.cons_append]
      cases t with
      | nil =>
        simp only [List.nil_append] at ht
        refine ChainIs.cons a _ h0 (by omega) ?_
        have hga : ([a] : List Nat).getLast (by simp) = a := rfl
        rw [hga] at hlast
        rw [hlast]
        refine ChainIs.cons T _ hT0 (by omega) ?_
        rw [hTnext]
        have hstart : (s.attrarray a).next_attr = headOr0 R := by
          obtain ⟨he0, hhd⟩ := ht.start_eq
          cases R with
          | nil => rw [he0 rfl]; rfl
          | cons b t2 => rw [hhd b t2 rfl]; rfl
        rw [← hstart]
        refine ht.of_untouched ?_ (by omega)
        intro j hj
        rw [hR j hj]
      | cons b t2 =>
        have hmem_a : a ∈ (a :: b :: t2).dropLast := by
          simp [List.dropLast]
        have hcell_a := hdrop a hmem_a
        refine ChainIs.cons a _ h0 (by omega) ?_
        rw [hcell_a]
        rw [List.cons_append] at ht
        refine ih (by simp) _ R ?_ ?_ ?_ ?_ hTnext
        · rw [List.cons_append]; exact ht
        · intro j hj
          refine hdrop j ?_
          simp only [List.dropLast] at hj ⊢
          exact List.mem_cons_of_mem a hj
        · exact hR
        · have h1 : (a :: b :: t2).getLast (List.cons_ne_nil a (b :: t2)) =
              (b :: t2).getLast (by simp) := List.getLast_cons (by simp)
          rw [← h1]
          exact hlast

theorem kindsOf_congr (s s' : STState) (l : List Nat)
    (h : ∀ j ∈ l, (s'.attrarray j).attr_num = (s.attrarray j).attr_num) :
    kindsOf s' l = kindsOf s l := by
  induction l with
  | nil => rfl
  | cons a t ih =>
    simp only [kindsOf, List.map_cons]
    rw [h a (List.mem_cons_self a t)]
    have := ih fun j hj => h j (List.mem_cons_of_mem a hj)
    simp only [kindsOf] at this
    rw [this]

/-- `SetAttr` when the kind is already present at cell `j`: overwrite the
value in place. -/
theorem SetAttr_overwrite_eq (s : STState) (p k j : Nat) (v : AttrVal)
    (hIs : IsAttr s p k = j) (hj : j ≠ 0) :
    SetAttr s p k v = .ok
      { s with attrarray := upd s.attrarray j { s.attrarray j with attr_val := v } } := by
  simp [SetAttr, hIs, hj]

/-- `SetAttr` when the kind is absent and the walk stops immediately: the
new cell becomes the slot's chain head. -/
theorem SetAttr_ins_head (s : STState) (p k nx : Nat) (v : AttrVal)
    (hIs : IsAttr s p k = 0)
    (hgo : setAttrGo s k (s.attr_top + 1) none (s.st p) = (none, nx))
    (hcap : s.attr_top < ATTR_SIZE - 1) :
    SetAttr s p k v = .ok
      { s with attr_top := s.attr_top + 1,
               attrarray := upd s.attrarray (s.attr_top + 1) ⟨k, v, nx⟩,
               st := upd s.st p (s.attr_top + 1) } := by
  have hc : ¬ s.attr_top ≥ ATTR_SIZE - 1 := by omega
  simp [SetAttr, hIs, hgo, hc]

/-- `SetAttr` when the kind is absent and the walk passed cell `pr`: the
new cell is spliced between `pr` and `nx`. -/
theorem SetAttr_ins_mid (s : STState) (p k pr nx : Nat) (v : AttrVal)
    (hIs : IsAttr s p k = 0)
    (hgo : setAttrGo s k (s.attr_top + 1) none (s.st p) = (some pr, nx))
    (hpr : pr ≠ s.attr_top + 1)
    (hcap : s.attr_top < ATTR_SIZE - 1) :
    SetAttr s p k v = .ok
      { s with attr_top := s.attr_top + 1,
               attrarray := upd (upd s.attrarray (s.attr_top + 1) ⟨k, v, nx⟩) pr
                 { s.attrarray pr with next_attr := s.attr_top + 1 } } := by
  have hc : ¬ s.attr_top ≥ ATTR_SIZE - 1 := by omega
  simp [SetAttr, hIs, hgo, hc, hpr]

/-- The chain of the updated slot after `SetAttr s p k v`, as a list of
cell indices: unchanged on overwrite, otherwise the fresh cell
`attr_top + 1` spliced at its sorted position. -/
def newChain (s : STState) (p k : Nat) (l : List Nat) : List Nat :=
  if IsAttr s p k ≠ 0 then l
  else (splitLt s k l).1 ++ (s.attr_top + 1) :: (splitLt s k l).2

theorem pairsOf_cons (s : STState) (a : Nat) (t : List Nat) :
    pairsOf s (a :: t) =
      ((s.attrarray a).attr_num, (s.attrarray a).attr_val) :: pairsOf s t := rfl


/-- Claim C9: on a slot whose attribute chain is sorted by ascending kind
(with the pool not full), `set_attr` overwrites the cell in place when the
kind is already present and otherwise splices a fresh cell at its sorted
position, so the new chain's (kind, value) list is exactly the sorted
insert of the old one, its kinds stay strictly ascending (hence free of
duplicates, and iteration visits kinds in ascending order), and `get_attr`
of that kind afterwards returns the new value. -/
theorem C9_setattr_sorted (s : STState) (p k : Nat) (v : AttrVal) (l : List Nat)
    (hch : ChainIs s (s.st p) l)
    (hs : (kindsOf s l).Sorted (· < ·))
    (hcap : s.attr_top < ATTR_SIZE - 1) :
    SetAttr s p k v = .ok (okState s (SetAttr s p k v)) ∧
    ChainIs (okState s (SetAttr s p k v))
      ((okState s (SetAttr s p k v)).st p) (newChain s p k l) ∧
    pairsOf (okState s (SetAttr s p k v)) (newChain s p k l) =
      insertKV k v (pairsOf s l) ∧
    (kindsOf (okState s (SetAttr s p k v)) (newChain s p k l)).Sorted (· < ·) ∧
    (kindsOf (okState s (SetAttr s p k v)) (newChain s p k l)).Nodup ∧
    GetAttr (okState s (SetAttr s p k v)) p k = v := by
  have hp : l.Pairwise (RK s) := (pairwise_iff_kinds s l).mpr hs
  have hnd : l.Nodup := chain_nodup hp
  have hlen : l.length ≤ s.attr_top := chain_length_le hch hnd
  have hspec := isAttrGo_spec s k l (s.st p) (s.attr_top + 1) hch hp (by omega)
  by_cases hmem : ∃ j ∈ l, (s.attrarray j).attr_num = k
  · obtain ⟨j, hjmem, hjk⟩ := hmem
    obtain ⟨hj0, hjle⟩ := hch.mem_facts j hjmem
    have hIs : IsAttr s p k = j := hspec.2 j hjmem hjk
    have hS := SetAttr_overwrite_eq s p k j v hIs hj0
    obtain ⟨sO, hsO⟩ : ∃ t : STState,
        t = { s with attrarray := upd s.attrarray j { s.attrarray j with attr_val := v } } :=
      ⟨_, rfl⟩
    have hS2 : SetAttr s p k v = .ok sO := by rw [hsO]; exact hS
    have hok : okState s (SetAttr s p k v) = sO := by
      rw [hS2]
      simp only [okState]
    have hNC : newChain s p k l = l := by
      simp only [newChain]
      rw [hIs, if_pos hj0]
    rw [hok, hNC]
    have hst : sO.st = s.st := by rw [hsO]
    have htop : sO.attr_top = s.attr_top := by rw [hsO]
    have harrj : sO.attrarray j = { s.attrarray j with attr_val := v } := by
      rw [hsO]; simp
    have harr : ∀ m, m ≠ j → sO.attrarray m = s.attrarray m := by
      intro m hm
      rw [hsO]; simp [hm]
    have hnumj : (sO.attrarray j).attr_num = k := by rw [harrj]; exact hjk
    have hvalj : (sO.attrarray j).attr_val = v := by rw [harrj]
    have hchO : ChainIs sO (s.st p) l := by
      refine hch.of_untouched ?_ (by rw [htop])
      intro m _
      by_cases hmj : m = j
      · rw [hmj, harrj]
      · rw [harr m hmj]
    obtain ⟨l1, l2, hdec⟩ := List.append_of_mem hjmem
    have hndd : (l1 ++ j :: l2).Nodup := by rw [← hdec]; exact hnd
    rw [List.nodup_append] at hndd
    have hjl1 : j ∉ l1 := fun hjin => hndd.2.2 hjin (List.mem_cons_self j l2)
    have hjl2 : j ∉ l2 := (List.nodup_cons.mp hndd.2.1).1
    have hpd : (l1 ++ j :: l2).Pairwise (RK s) := by rw [← hdec]; exact hp
    have hl1lt : ∀ q ∈ pairsOf s l1, q.1 < k := by
      intro q hq
      simp only [pairsOf] at hq
      obtain ⟨m, hm, hmq⟩ := List.mem_map.mp hq
      have hmj := (List.pairwise_append.mp hpd).2.2 m hm j (List.mem_cons_self j l2)
      rw [RK, hjk] at hmj
      rw [← hmq]
      exact hmj
    have hl1 : pairsOf sO l1 = pairsOf s l1 := by
      refine pairsOf_congr s sO l1 ?_
      intro m hm
      have hmj : m ≠ j := fun he => hjl1 (he ▸ hm)
      rw [harr m hmj]
      exact ⟨rfl, rfl⟩
    have hl2 : pairsOf sO l2 = pairsOf s l2 := by
      refine pairsOf_congr s sO l2 ?_
      intro m hm
      have hmj : m ≠ j := fun he => hjl2 (he ▸ hm)
      rw [harr m hmj]
      exact ⟨rfl, rfl⟩
    have hRHS : insertKV k v (pairsOf s l) = pairsOf s l1 ++ (k, v) :: pairsOf s l2 := by
      rw [hdec, pairsOf_append, pairsOf_cons, hjk]
      exact insertKV_overwrite k v (pairsOf s l1) (pairsOf s l2) _ hl1lt
    have h3 : pairsOf sO l = insertKV k v (pairsOf s l) := by
      rw [hRHS, hdec, pairsOf_append, pairsOf_cons, hnumj, hvalj, hl1, hl2]
    have h4 : (kindsOf sO l).Sorted (· < ·) := by
      rw [← pairsOf_fst, h3]
      refine insertKV_sorted k v (pairsOf s l) ?_
      rw [pairsOf_fst]
      exact hs
    have h5 : (kindsOf sO l).Nodup :=
      List.Pairwise.imp (fun hab => ne_of_lt hab) h4
    have hchO2 : ChainIs sO (sO.st p) l := by rw [hst]; exact hchO
    have hpO : l.Pairwise (RK sO) := (pairwise_iff_kinds sO l).mpr h4
    have hspecO := isAttrGo_spec sO k l (sO.st p) (sO.attr_top + 1) hchO2 hpO
      (by rw [htop]; omega)
    have hIsO : IsAttr sO p k = j := hspecO.2 j hjmem hnumj
    have h6 : GetAttr sO p k = v := by
      simp only [GetAttr, hIsO]
      rw [if_neg hj0, hvalj]
    exact ⟨hS2, hchO2, h3, h4, h5, h6⟩
  · push_neg at hmem
    have hIs : IsAttr s p k = 0 := hspec.1 hmem
    have hgo := setAttrGo_spec s k l (s.st p) (s.attr_top + 1) none hch (by omega)
    have hT0 : s.attr_top + 1 ≠ 0 := by omega
    have hNC : newChain s p k l =
        (splitLt s k l).1 ++ (s.attr_top + 1) :: (splitLt s k l).2 := by
      simp only [newChain]
      rw [hIs]
      simp
    have hgt := splitLt_snd_gt s k l hp hmem
    have hltL := splitLt_fst_lt s k l
    have happ : (splitLt s k l).1 ++ (splitLt s k l).2 = l := splitLt_append s k l
    have hmem_ne : ∀ m ∈ l, m ≠ s.attr_top + 1 := by
      intro m hm
      have := (hch.mem_facts m hm).2
      omega
    by_cases hL : (splitLt s k l).1 = []
    · rw [dif_pos hL] at hgo
      have hR2 : (splitLt s k l).2 = l := by
        have h1 := happ
        rw [hL] at h1
        simpa using h1
      have hS := SetAttr_ins_head s p k (s.st p) v hIs hgo hcap
      obtain ⟨sO, hsO⟩ : ∃ t : STState,
          t = { s with attr_top := s.attr_top + 1,
                       attrarray := upd s.attrarray (s.attr_top + 1) ⟨k, v, s.st p⟩,
                       st := upd s.st p (s.attr_top + 1) } :=
        ⟨_, rfl⟩
      have hS2 : SetAttr s p k v = .ok sO := by rw [hsO]; exact hS
      have hok : okState s (SetAttr s p k v) = sO := by
        rw [hS2]
        simp only [okState]
      rw [hok, hNC, hL, hR2, List.nil_append]
      have htop : sO.attr_top = s.attr_top + 1 := by rw [hsO]
      have hstp : sO.st p = s.attr_top + 1 := by rw [hsO]; simp
      have harrT : sO.attrarray (s.attr_top + 1) = ⟨k, v, s.st p⟩ := by
        rw [hsO]; simp
      have harr : ∀ m, m ≠ s.attr_top + 1 → sO.attrarray m = s.attrarray m := by
        intro m hm
        rw [hsO]; simp [hm]
      have hchtail : ChainIs sO (s.st p) l := by
        refine hch.of_untouched ?_ (by rw [htop]; omega)
        intro m hm
        rw [harr m (hmem_ne m hm)]
      have hch2 : ChainIs sO (sO.st p) ((s.attr_top + 1) :: l) := by
        rw [hstp]
        refine ChainIs.cons _ _ hT0 (by rw [htop]) ?_
        rw [harrT]
        exact hchtail
      have htl : pairsOf sO l = pairsOf s l := by
        refine pairsOf_congr s sO l ?_
        intro m hm
        rw [harr m (hmem_ne m hm)]
        exact ⟨rfl, rfl⟩
      have hRHS : insertKV k v (pairsOf s l) = (k, v) :: pairsOf s l := by
        have h1 := insertKV_append_lt k v [] (pairsOf s l)
          (by intro q hq; cases hq)
          (by
            intro q hq
            simp only [pairsOf] at hq
            obtain ⟨m, hm, hmq⟩ := List.mem_map.mp hq
            rw [← hmq]
            refine hgt m ?_
            rw [hR2]
            exact hm)
        simpa using h1
      have h3 : pairsOf sO ((s.attr_top + 1) :: l) = insertKV k v (pairsOf s l) := by
        rw [pairsOf_cons, htl, hRHS, harrT]
      have h4 : (kindsOf sO ((s.attr_top + 1) :: l)).Sorted (· < ·) := by
        rw [← pairsOf_fst, h3]
        refine insertKV_sorted k v (pairsOf s l) ?_
        rw [pairsOf_fst]
        exact hs
      have h5 : (kindsOf sO ((s.attr_top + 1) :: l)).Nodup :=
        List.Pairwise.imp (fun hab => ne_of_lt hab) h4
      have hpO : ((s.attr_top + 1) :: l).Pairwise (RK sO) :=
        (pairwise_iff_kinds sO _).mpr h4
      have hlen2 : ((s.attr_top + 1) :: l).length ≤ sO.attr_top + 1 := by
        simp only [List.length_cons]
        rw [htop]
        omega
      have hspecO := isAttrGo_spec sO k ((s.attr_top + 1) :: l) (sO.st p)
        (sO.attr_top + 1) hch2 hpO hlen2
      have hIsO : IsAttr sO p k = s.attr_top + 1 :=
        hspecO.2 (s.attr_top + 1) (List.mem_cons_self _ _) (by rw [harrT])
      have h6 : GetAttr sO p k = v := by
        simp only [GetAttr, hIsO]
        rw [if_neg hT0, harrT]
      exact ⟨hS2, hch2, h3, h4, h5, h6⟩
    · rw [dif_neg hL] at hgo
      have hprL : (splitLt s k l).1.getLast hL ∈ (splitLt s k l).1 :=
        List.getLast_mem hL
      have hprl : (splitLt s k l).1.getLast hL ∈ l := by
        have h1 := List.mem_append_left (splitLt s k l).2 hprL
        rw [happ] at h1
        exact h1
      have hpr0 : (splitLt s k l).1.getLast hL ≠ 0 := (hch.mem_facts _ hprl).1
      have hprle : (splitLt s k l).1.getLast hL ≤ s.attr_top := (hch.mem_facts _ hprl).2
      have hprT : (splitLt s k l).1.getLast hL ≠ s.attr_top + 1 := by omega
      have hTpr : s.attr_top + 1 ≠ (splitLt s k l).1.getLast hL := by omega
      have hS := SetAttr_ins_mid s p k ((splitLt s k l).1.getLast hL)
        (headOr0 (splitLt s k l).2) v hIs hgo hprT hcap
      obtain ⟨sO, hsO⟩ : ∃ t : STState,
          t = { s with attr_top := s.attr_top + 1,
                       attrarray := upd (upd s.attrarray (s.attr_top + 1)
                           ⟨k, v, headOr0 (splitLt s k l).2⟩) ((splitLt s k l).1.getLast hL)
                         { s.attrarray ((splitLt s k l).1.getLast hL) with
                           next_attr := s.attr_top + 1 } } :=
        ⟨_, rfl⟩
      have hS2 : SetAttr s p k v = .ok sO := by rw [hsO]; exact hS
      have hok : okState s (SetAttr s p k v) = sO := by
        rw [hS2]
        simp only [okState]
      rw [hok, hNC]
      have htop : sO.attr_top = s.attr_top + 1 := by rw [hsO]
      have hstq : sO.st = s.st := by rw [hsO]
      have harrpr : sO.attrarray ((splitLt s k l).1.getLast hL) =
          { s.attrarray ((splitLt s k l).1.getLast hL) with
            next_attr := s.attr_top + 1 } := by
        rw [hsO]; simp
      have harrT : sO.attrarray (s.attr_top + 1) =
          ⟨k, v, headOr0 (splitLt s k l).2⟩ := by
        rw [hsO]; simp [hTpr]
      have harr : ∀ m, m ≠ (splitLt s k l).1.getLast hL → m ≠ s.attr_top + 1 →
          sO.attrarray m = s.attrarray m := by
        intro m h1 h2
        rw [hsO]; simp [h1, h2]
      have hndLR : ((splitLt s k l).1 ++ (splitLt s k l).2).Nodup := by
        rw [happ]; exact hnd
      rw [List.nodup_append] at hndLR
      obtain ⟨hLnd, hRnd, hdisj⟩ := hndLR
      have hch0 : ChainIs s (s.st p) ((splitLt s k l).1 ++ (splitLt s k l).2) := by
        rw [happ]; exact hch
      have hdropsub : ∀ m ∈ (splitLt s k l).1.dropLast,
          sO.attrarray m = s.attrarray m := by
        intro m hm
        have hmL : m ∈ (splitLt s k l).1 :=
          (List.dropLast_sublist (splitLt s k l).1).subset hm
        have hml : m ∈ l := by
          have h1 := List.mem_append_left (splitLt s k l).2 hmL
          rw [happ] at h1
          exact h1
        have hm1 : m ≠ (splitLt s k l).1.getLast hL := by
          have hdec2 : (splitLt s k l).1.dropLast ++ [(splitLt s k l).1.getLast hL] =
              (splitLt s k l).1 := List.dropLast_append_getLast hL
          have hnd2 : ((splitLt s k l).1.dropLast ++
              [(splitLt s k l).1.getLast hL]).Nodup := by
            rw [hdec2]; exact hLnd
          rw [List.nodup_append] at hnd2
          intro he
          exact hnd2.2.2 hm (by rw [he]; exact List.mem_singleton_self _)
        exact harr m hm1 (hmem_ne m hml)
      have hRsub : ∀ m ∈ (splitLt s k l).2, sO.attrarray m = s.attrarray m := by
        intro m hm
        have hml : m ∈ l := by
          have h1 := List.mem_append_right (splitLt s k l).1 hm
          rw [happ] at h1
          exact h1
        have hm1 : m ≠ (splitLt s k l).1.getLast hL := by
          intro he
          exact hdisj hprL (he ▸ hm)
        exact harr m hm1 (hmem_ne m hml)
      have hch2 : ChainIs sO (sO.st p)
          ((splitLt s k l).1 ++ (s.attr_top + 1) :: (splitLt s k l).2) := by
        rw [hstq]
        refine chain_relink s sO (s.attr_top + 1) htop (by omega) hT0
          (splitLt s k l).1 hL (s.st p) (splitLt s k l).2 hch0 hdropsub hRsub ?_ ?_
        · rw [harrpr]
        · rw [harrT]
      have hLcells : ∀ m ∈ (splitLt s k l).1,
          (sO.attrarray m).attr_num = (s.attrarray m).attr_num ∧
          (sO.attrarray m).attr_val = (s.attrarray m).attr_val := by
        intro m hm
        by_cases hmpr : m = (splitLt s k l).1.getLast hL
        · rw [hmpr, harrpr]
          exact ⟨rfl, rfl⟩
        · have hml : m ∈ l := by
            have h1 := List.mem_append_left (splitLt s k l).2 hm
            rw [happ] at h1
            exact h1
          rw [harr m hmpr (hmem_ne m hml)]
          exact ⟨rfl, rfl⟩
      have hl1 : pairsOf sO (splitLt s k l).1 = pairsOf s (splitLt s k l).1 :=
        pairsOf_congr s sO (splitLt s k l).1 hLcells
      have hl2 : pairsOf sO (splitLt s k l).2 = pairsOf s (splitLt s k l).2 := by
        refine pairsOf_congr s sO (splitLt s k l).2 ?_
        intro m hm
        rw [hRsub m hm]
        exact ⟨rfl, rfl⟩
      have hRHS : insertKV k v (pairsOf s l) =
          pairsOf s (splitLt s k l).1 ++ (k, v) :: pairsOf s (splitLt s k l).2 := by
        have h1 : pairsOf s l =
            pairsOf s (splitLt s k l).1 ++ pairsOf s (splitLt s k l).2 := by
          rw [← pairsOf_append, happ]
        rw [h1]
        refine insertKV_append_lt k v _ _ ?_ ?_
        · intro q hq
          simp only [pairsOf] at hq
          obtain ⟨m, hm, hmq⟩ := List.mem_map.mp hq
          rw [← hmq]
          exact hltL m hm
        · intro q hq
          simp only [pairsOf] at hq
          obtain ⟨m, hm, hmq⟩ := List.mem_map.mp hq
          rw [← hmq]
          exact hgt m hm
      have h3 : pairsOf sO ((splitLt s k l).1 ++ (s.attr_top + 1) :: (splitLt s k l).2) =
          insertKV k v (pairsOf s l) := by
        rw [pairsOf_append, pairsOf_cons, hl1, hl2, hRHS, harrT]
      have h4 : (kindsOf sO ((splitLt s k l).1 ++
          (s.attr_top + 1) :: (splitLt s k l).2)).Sorted (· < ·) := by
        rw [← pairsOf_fst, h3]
        refine insertKV_sorted k v (pairsOf s l) ?_
        rw [pairsOf_fst]
        exact hs
      have h5 : (kindsOf sO ((splitLt s k l).1 ++
          (s.attr_top + 1) :: (splitLt s k l).2)).Nodup :=
        List.Pairwise.imp (fun hab => ne_of_lt hab) h4
      have hpO : ((splitLt s k l).1 ++
          (s.attr_top + 1) :: (splitLt s k l).2).Pairwise (RK sO) :=
        (pairwise_iff_kinds sO _).mpr h4
      have hlenl : (splitLt s k l).1.length + (splitLt s k l).2.length = l.length := by
        have h1 : ((splitLt s k l).1 ++ (splitLt s k l).2).length = l.length := by
          rw [happ]
        rw [List.length_append] at h1
        exact h1
      have hlen2 : ((splitLt s k l).1 ++
          (s.attr_top + 1) :: (splitLt s k l).2).length ≤ sO.attr_top + 1 := by
        rw [List.length_append, List.length_cons, htop]
        omega
      have hspecO := isAttrGo_spec sO k
        ((splitLt s k l).1 ++ (s.attr_top + 1) :: (splitLt s k l).2) (sO.st p)
        (sO.attr_top + 1) hch2 hpO hlen2
      have hTmem : s.attr_top + 1 ∈
          (splitLt s k l).1 ++ (s.attr_top + 1) :: (splitLt s k l).2 :=
        List.mem_append_right _ (List.mem_cons_self _ _)
      have hIsO : IsAttr sO p k = s.attr_top + 1 :=
        hspecO.2 _ hTmem (by rw [harrT])
      have h6 : GetAttr sO p k = v := by
        simp only [GetAttr, hIsO]
        rw [if_neg hT0, harrT]
      exact ⟨hS2, hch2, h3, h4, h5, h6⟩

/-- A small symbol-table state: slot 1's attribute chain is cell 1 (kind 1,
value 5) followed by cell 2 (kind 4, value 7). -/
def sC9 : STState :=
  { initState with
      st := upd initState.st 1 1,
      attrarray := upd (upd initState.attrarray 1 ⟨1, .int 5, 2⟩) 2 ⟨4, .int 7, 0⟩,
      st_top := 1,
      attr_top := 2 }

theorem chainC9 : ChainIs sC9 1 [1, 2] :=
  ChainIs.cons 1 [2] (by decide) (by decide)
    (ChainIs.cons 2 [] (by decide) (by decide) ChainIs.nil)

/-- Witness for C9 at a concrete state: setting kind 2 on slot 1 splices a
cell between kinds 1 and 4 and `GetAttr` reads the new value back. -/
theorem C9_setattr_sorted_witness :
    pairsOf (okState sC9 (SetAttr sC9 1 2 (.int 9))) (newChain sC9 1 2 [1, 2]) =
      insertKV 2 (.int 9) (pairsOf sC9 [1, 2]) ∧
    GetAttr (okState sC9 (SetAttr sC9 1 2 (.int 9))) 1 2 = .int 9 :=
  ⟨(C9_setattr_sorted sC9 1 2 (.int 9) [1, 2] chainC9 (by decide) (by decide)).2.2.1,
   (C9_setattr_sorted sC9 1 2 (.int 9) [1, 2] chainC9 (by decide) (by decide)).2.2.2.2.2⟩

/-- `mainScanGo` over bound `n` is exactly "some slot `i ≤ n` carries the
name `id` in its `NAME_ATTR`" — a scan over all entries with no scope or
nesting test. -/
theorem mainScanGo_iff (s : STState) (id : Int) :
    ∀ n : Nat, mainScanGo s id n = true ↔
      ∃ i ≤ n, IsAttr s i NAME_ATTR ≠ 0 ∧ GetAttrInt s i NAME_ATTR = id := by
  intro n
  induction n with
  | zero =>
    simp only [mainScanGo, Bool.and_eq_true, decide_eq_true_eq]
    constructor
    · rintro ⟨h1, h2⟩
      exact ⟨0, le_refl 0, h1, h2⟩
    · rintro ⟨i, hi, h1, h2⟩
      have hi0 : i = 0 := Nat.le_zero.mp hi
      subst hi0
      exact ⟨h1, h2⟩
  | succ n ih =>
    simp only [mainScanGo, Bool.or_eq_true, Bool.and_eq_true, decide_eq_true_eq, ih]
    constructor
    · rintro (⟨i, hi, h⟩ | ⟨h1, h2⟩)
      · exact ⟨i, by omega, h⟩
      · exact ⟨n + 1, le_refl _, h1, h2⟩
    · rintro ⟨i, hi, h⟩
      by_cases hin : i ≤ n
      · exact Or.inl ⟨i, hin, h⟩
      · have hieq : i = n + 1 := by omega
        subst hieq
        exact Or.inr h

/-- Claim C8: when a `MethodOp` whose name is the interned id of "main" is
analyzed and some existing symbol-table entry (any slot `i ≤ st_top`,
regardless of scope) already carries that name in its `Name` attribute,
`methodop` reports `Redeclaration` and returns the node unchanged: the
post-state differs from the pre-state only by the printed diagnostic, so
no entry is inserted, no frame is pushed and no attribute is written. -/
theorem C8_main_redecl (f : Nat) (node : ILTree) (s : STState)
    (hm : IntVal (LeftChild (LeftChild node)) = loc_str "main")
    (hex : ∃ i ≤ s.st_top, IsAttr s i NAME_ATTR ≠ 0 ∧
      GetAttrInt s i NAME_ATTR = loc_str "main") :
    methodop (f + 1) node s =
      .ok (node, { s with errors := s.errors ++ [(REDECLARATION, loc_str "main")] }) := by
  have hscan : mainScanGo s (loc_str "main") s.st_top = true :=
    (mainScanGo_iff s (loc_str "main") s.st_top).mpr hex
  show analyzeGo (f + 1) (.methoddef node) s = _
  simp only [analyzeGo]
  rw [hm]
  rw [if_pos ⟨rfl, hscan⟩]
  simp [error_msg, CONTINUE, ABORT]

/-- A state whose slot 1 already carries the interned name of "main". -/
def sC8 : STState :=
  { initState with
      st := upd initState.st 1 1,
      attrarray := upd initState.attrarray 1 ⟨NAME_ATTR, .int (loc_str "main"), 0⟩,
      st_top := 1,
      attr_top := 1 }

/-- A `MethodOp` node declaring a method named "main". -/
def nodeC8 : ILTree :=
  .expr MethodOp (.expr HeadOp (.leaf IDNode (loc_str "main")) .dummyNode) .dummyNode

/-- Witness for C8: analyzing a second method named "main" against `sC8`
yields exactly one `Redeclaration` diagnostic and the unchanged node. -/
theorem C8_main_redecl_witness :
    methodop 5 nodeC8 sC8 =
      .ok (nodeC8, { sC8 with errors := sC8.errors ++ [(REDECLARATION, loc_str "main")] }) :=
  C8_main_redecl 4 nodeC8 sC8 rfl ⟨1, by decide, by decide, rfl⟩

/-- An `[e]` access link of a `VarOp` chain: `SelectOp(IndexOp(e), next)`. -/
def ixSel (e next : ILTree) : ILTree :=
  .expr SelectOp (.expr IndexOp e .dummyNode) next

/-- A `.f` access link of a `VarOp` chain: `SelectOp(FieldOp(IDNode f), next)`. -/
def fldSel (f : Int) (next : ILTree) : ILTree :=
  .expr SelectOp (.expr FieldOp (.leaf IDNode f) .dummyNode) next


theorem NodeKind_leaf (k : Nat) (v : Int) : NodeKind (.leaf k v) = k := rfl

theorem NodeKind_expr (op : Nat) (l r : ILTree) : NodeKind (.expr op l r) = EXPRNode := rfl

theorem NodeOp_expr (op : Nat) (l r : ILTree) : NodeOp (.expr op l r) = op := rfl

theorem LeftChild_expr (op : Nat) (l r : ILTree) : LeftChild (.expr op l r) = l := rfl

theorem RightChild_expr (op : Nat) (l r : ILTree) : RightChild (.expr op l r) = r := rfl

theorem IntVal_leaf (k : Nat) (v : Int) : IntVal (.leaf k v) = v := rfl

theorem IsNull_expr (op : Nat) (l r : ILTree) : IsNull (.expr op l r) = false := rfl

theorem IsNull_dummy : IsNull .dummyNode = true := rfl

theorem SetLeftChild_expr (op : Nat) (l r c : ILTree) :
    SetLeftChild (.expr op l r) c = .expr op c r := rfl

theorem SetRightChild_expr (op : Nat) (l r c : ILTree) :
    SetRightChild (.expr op l r) c = .expr op l c := rfl

/-- One index consumed by the integer-array walk: within the dimension
bound, `arrint` steps past an `IndexOp` link (when the subscript is not an
expression subtree there is nothing to analyze) and recurses with `d + 1`. -/
theorem arrint_step (f : Nat) (s : STState) (arr : Nat) (nest0 dimension d : Int)
    (i next : ILTree) (hi : NodeKind i ≠ EXPRNode) (hd : ¬ d + 1 > dimension) :
    errorsOf (analyzeGo (f + 1) (.arrint 0 arr nest0 dimension d (ixSel i next)) s) =
      errorsOf (analyzeGo f (.arrint 0 arr nest0 dimension (d + 1) next) s) := by
  simp only [analyzeGo, ixSel, LeftChild_expr, RightChild_expr, NodeOp_expr, IsNull_expr]
  rw [if_pos ⟨by simp, by decide⟩]
  rw [if_neg hd]
  rw [if_neg hi]
  simp only []
  cases analyzeGo f (.arrint 0 arr nest0 dimension (d + 1) next) s with
  | error e => rfl
  | ok p =>
    obtain ⟨t2, s2⟩ := p
    rfl

/-- An index beyond the declared dimension: `arrint` reports
`IndexMismatch` against the array's name and stops. -/
theorem arrint_over (f : Nat) (s : STState) (arr : Nat) (nest0 dimension d nm : Int)
    (i next : ILTree) (hd : d + 1 > dimension)
    (hnm : GetAttrInt s arr NAME_ATTR = nm) :
    errorsOf (analyzeGo (f + 1) (.arrint 0 arr nest0 dimension d (ixSel i next)) s) =
      s.errors ++ [(INDX_MIS, nm)] := by
  simp only [analyzeGo, ixSel, LeftChild_expr, NodeOp_expr, IsNull_expr]
  rw [if_pos ⟨by simp, by decide⟩]
  rw [if_pos hd]
  rw [hnm]
  simp [error_msg, errorsOf, CONTINUE, ABORT]

/-- An access chain exhausted before the declared dimension: `arrint`
reports `IndexMismatch` against the array's name. -/
theorem arrint_under (f : Nat) (s : STState) (arr : Nat) (nest0 dimension d nm : Int)
    (hd : d < dimension) (hnm : GetAttrInt s arr NAME_ATTR = nm) :
    errorsOf (analyzeGo (f + 1) (.arrint 0 arr nest0 dimension d ILTree.dummyNode) s) =
      s.errors ++ [(INDX_MIS, nm)] := by
  simp only [analyzeGo]
  rw [if_neg (by intro h; exact h.1 IsNull_dummy)]
  rw [if_pos ⟨IsNull_dummy, hd⟩]
  rw [hnm]
  simp [error_msg, errorsOf, CONTINUE, ABORT]

/-- A `length` pseudo-field followed by any further access: `arrint`
reports `TypeMismatch` against the array's name. -/
theorem arrint_len_more (f : Nat) (s : STState) (arr : Nat) (nest0 dimension d nm : Int)
    (rest : ILTree) (hrest : IsNull rest = false)
    (hnm : GetAttrInt s arr NAME_ATTR = nm) :
    errorsOf (analyzeGo (f + 1) (.arrint 0 arr nest0 dimension d
        (fldSel (loc_str "length") rest)) s) = s.errors ++ [(TYPE_MIS, nm)] := by
  simp only [analyzeGo, fldSel, LeftChild_expr, RightChild_expr, NodeOp_expr,
    IsNull_expr, IntVal_leaf]
  rw [if_neg (by intro h; exact h.2 rfl)]
  rw [if_neg (by intro h; simp at h)]
  rw [if_pos (by simp)]
  rw [if_neg (by intro h; exact h rfl)]
  rw [if_pos (by simp [hrest])]
  rw [hnm]
  simp [error_msg, errorsOf, CONTINUE, ABORT]

/-- A final `length` pseudo-field with nothing after it: accepted, no
diagnostic. -/
theorem arrint_len_only (f : Nat) (s : STState) (arr : Nat) (nest0 dimension d : Int) :
    errorsOf (analyzeGo (f + 1) (.arrint 0 arr nest0 dimension d
        (fldSel (loc_str "length") ILTree.dummyNode)) s) = s.errors := by
  simp only [analyzeGo, fldSel, LeftChild_expr, RightChild_expr, NodeOp_expr,
    IsNull_expr, IntVal_leaf]
  rw [if_neg (by intro h; exact h.2 rfl)]
  rw [if_neg (by intro h; simp at h)]
  rw [if_pos (by simp)]
  rw [if_neg (by intro h; exact h rfl)]
  rw [if_neg (by simp [IsNull_dummy])]
  simp [errorsOf]

/-- From a `VarOp` on a name resolving (at stack frame `j`) to a symbol
`arr` whose attributes say "2-dimensional array of integers", `vardef`
plus the `varloop` dispatch reach the `arrint` walk on the post-lookup
state (which differs from `s` only in frame `j`'s `used` flag). -/
theorem varop_arr_entry (f : Nat) (s : STState) (b : Int) (j arr : Nat)
    (tyop : Nat) (tz : Int) (tyrest rchild : ILTree)
    (hfind : lookUpGo s b s.stack_top = some j)
    (hptr : (s.stack j).st_ptr = arr)
    (harr0 : arr ≠ 0)
    (hkind : GetAttr s arr KIND_ATTR = .int ARR)
    (hdim : GetAttr s arr DIMEN_ATTR = .int 2)
    (hty : GetAttr s arr TYPE_ATTR = .node (.expr tyop (.leaf INTEGERTNode tz) tyrest))
    (hnull : IsNull rchild = false) :
    errorsOf (varop (f + 1 + 1) (.expr VarOp (.leaf IDNode b) rchild) 0 s) =
      errorsOf (analyzeGo f (.arrint 0 arr (-1) 2 0 rchild)
        { s with stack := upd s.stack j { s.stack j with used := true } }) := by
  have hlk : LookUp b s = .ok (arr,
      { s with stack := upd s.stack j { s.stack j with used := true } }) := by
    have h1 := LookUp_found s b j hfind
    rw [hptr] at h1
    exact h1
  have hst1 : ({ s with stack := upd s.stack j { s.stack j with used := true } } :
      STState).st = s.st := rfl
  have ha1 : ({ s with stack := upd s.stack j { s.stack j with used := true } } :
      STState).attrarray = s.attrarray := rfl
  have ht1 : ({ s with stack := upd s.stack j { s.stack j with used := true } } :
      STState).attr_top = s.attr_top := rfl
  have hk1 : GetAttrInt { s with stack := upd s.stack j { s.stack j with used := true } }
      arr KIND_ATTR = ARR := by
    rw [GetAttrInt_congr s _ hst1 ha1 ht1]
    simp only [GetAttrInt, hkind, attrValInt_int]
  have hd1 : GetAttrInt { s with stack := upd s.stack j { s.stack j with used := true } }
      arr DIMEN_ATTR = 2 := by
    rw [GetAttrInt_congr s _ hst1 ha1 ht1]
    simp only [GetAttrInt, hdim, attrValInt_int]
  have hy1 : GetAttr { s with stack := upd s.stack j { s.stack j with used := true } }
      arr TYPE_ATTR = .node (.expr tyop (.leaf INTEGERTNode tz) tyrest) := by
    rw [GetAttr_congr s _ hst1 ha1 ht1]
    exact hty
  show errorsOf (analyzeGo (f + 1 + 1)
      (.vardef (.expr VarOp (.leaf IDNode b) rchild) 0) s) = _
  simp only [analyzeGo, LeftChild_expr, RightChild_expr, IntVal_leaf, hlk,
    SetLeftChild_expr, MakeLeaf]
  rw [if_neg harr0]
  simp only [analyzeGo, hk1, hd1, hy1, attrValNode_node, LeftChild_expr, NodeKind_leaf]
  rw [if_neg (by decide), if_neg (by decide), if_neg (by decide)]
  rw [if_pos trivial]
  rw [hnull]
  rw [if_neg (by simp)]
  rw [if_pos trivial]
  cases analyzeGo f (.arrint 0 arr (-1) 2 0 rchild)
      { s with stack := upd s.stack j { s.stack j with used := true } } with
  | error e => rfl
  | ok p =>
    obtain ⟨t2, s2⟩ := p
    rfl

/-- Claim C7: for a symbol `arr` declared as a 2-dimensional integer
array, analyzing a `VarOp` on `arr` whose access chain has three
`IndexOp`s reports `IndexMismatch`; a chain with a single `IndexOp` and
nothing after it reports `IndexMismatch`; a chain whose `length`
pseudo-field is followed by any further access reports `TypeMismatch`;
and a chain whose only access is the final `length` field is accepted
with no diagnostic. -/
theorem C7_array_access (f : Nat) (s : STState) (b nm : Int) (j arr : Nat)
    (tyop : Nat) (tz : Int) (tyrest : ILTree) (i1 i2 i3 : ILTree) (rest : ILTree)
    (hfind : lookUpGo s b s.stack_top = some j)
    (hptr : (s.stack j).st_ptr = arr)
    (harr0 : arr ≠ 0)
    (hkind : GetAttr s arr KIND_ATTR = .int ARR)
    (hdim : GetAttr s arr DIMEN_ATTR = .int 2)
    (hty : GetAttr s arr TYPE_ATTR = .node (.expr tyop (.leaf INTEGERTNode tz) tyrest))
    (hnm : GetAttrInt s arr NAME_ATTR = nm)
    (h1 : NodeKind i1 ≠ EXPRNode) (h2 : NodeKind i2 ≠ EXPRNode)
    (hrest : IsNull rest = false) :
    errorsOf (varop (f + 5) (.expr VarOp (.leaf IDNode b)
        (ixSel i1 (ixSel i2 (ixSel i3 .dummyNode)))) 0 s) =
      s.errors ++ [(INDX_MIS, nm)] ∧
    errorsOf (varop (f + 5) (.expr VarOp (.leaf IDNode b) (ixSel i1 .dummyNode)) 0 s) =
      s.errors ++ [(INDX_MIS, nm)] ∧
    errorsOf (varop (f + 5) (.expr VarOp (.leaf IDNode b)
        (fldSel (loc_str "length") rest)) 0 s) =
      s.errors ++ [(TYPE_MIS, nm)] ∧
    errorsOf (varop (f + 5) (.expr VarOp (.leaf IDNode b)
        (fldSel (loc_str "length") .dummyNode)) 0 s) = s.errors := by
  have hnm1 : GetAttrInt { s with stack := upd s.stack j { s.stack j with used := true } }
      arr NAME_ATTR = nm := by
    rw [GetAttrInt_congr s { s with stack := upd s.stack j { s.stack j with used := true } }
      rfl rfl rfl]
    exact hnm
  refine ⟨?_, ?_, ?_, ?_⟩
  · rw [show f + 5 = f + 3 + 1 + 1 from by omega]
    rw [varop_arr_entry (f + 3) s b j arr tyop tz tyrest (ixSel i1 (ixSel i2 (ixSel i3 .dummyNode))) hfind hptr
      harr0 hkind hdim hty (show IsNull (ixSel i1 (ixSel i2 (ixSel i3 .dummyNode))) = false from rfl)]
    rw [show f + 3 = f + 2 + 1 from by omega]
    rw [arrint_step (f + 2) _ arr (-1) 2 0 i1 _ h1 (by decide)]
    rw [show f + 2 = f + 1 + 1 from by omega]
    rw [arrint_step (f + 1) _ arr (-1) 2 _ i2 _ h2 (by decide)]
    rw [arrint_over f _ arr (-1) 2 _ nm i3 _ (by decide) hnm1]
  · rw [show f + 5 = f + 3 + 1 + 1 from by omega]
    rw [varop_arr_entry (f + 3) s b j arr tyop tz tyrest (ixSel i1 .dummyNode) hfind hptr
      harr0 hkind hdim hty (show IsNull (ixSel i1 .dummyNode) = false from rfl)]
    rw [show f + 3 = f + 2 + 1 from by omega]
    rw [arrint_step (f + 2) _ arr (-1) 2 0 i1 _ h1 (by decide)]
    rw [show f + 2 = f + 1 + 1 from by omega]
    rw [arrint_under (f + 1) _ arr (-1) 2 _ nm (by decide) hnm1]
  · rw [show f + 5 = f + 3 + 1 + 1 from by omega]
    rw [varop_arr_entry (f + 3) s b j arr tyop tz tyrest (fldSel (loc_str "length") rest) hfind hptr
      harr0 hkind hdim hty (show IsNull (fldSel (loc_str "length") rest) = false from rfl)]
    rw [show f + 3 = f + 2 + 1 from by omega]
    rw [arrint_len_more (f + 2) _ arr (-1) 2 0 nm rest hrest hnm1]
  · rw [show f + 5 = f + 3 + 1 + 1 from by omega]
    rw [varop_arr_entry (f + 3) s b j arr tyop tz tyrest (fldSel (loc_str "length") .dummyNode) hfind hptr
      harr0 hkind hdim hty (show IsNull (fldSel (loc_str "length") .dummyNode) = false from rfl)]
    rw [show f + 3 = f + 2 + 1 from by omega]
    rw [arrint_len_only (f + 2) _ arr (-1) 2 0]

/-- A state declaring symbol 1 (name 7, at stack frame 1) as a
2-dimensional integer array: attribute chain Name=7, Nest=1, Kind=ARR,
Type=TypeIdOp(INTEGERT), Dimension=2. -/
def sArr : STState :=
  { initState with
      st := upd initState.st 1 1,
      attrarray := upd (upd (upd (upd (upd initState.attrarray
          1 ⟨NAME_ATTR, .int 7, 2⟩)
          2 ⟨NEST_ATTR, .int 1, 3⟩)
          3 ⟨KIND_ATTR, .int ARR, 4⟩)
          4 ⟨TYPE_ATTR, .node (.expr TypeIdOp (.leaf INTEGERTNode 0) .dummyNode), 5⟩)
          5 ⟨DIMEN_ATTR, .int 2, 0⟩,
      stack := upd initState.stack 1 ⟨false, 7, 1, false, false⟩,
      st_top := 1,
      attr_top := 5,
      stack_top := 1 }

/-- Witness for C7 at the concrete state `sArr`: three subscripts on the
2-D array report `IndexMismatch`, and a bare final `length` field passes
with no diagnostic. -/
theorem C7_array_access_witness :
    errorsOf (varop 5 (.expr VarOp (.leaf IDNode 7)
        (ixSel (.leaf NUMNode 0) (ixSel (.leaf NUMNode 0)
          (ixSel (.leaf NUMNode 0) .dummyNode)))) 0 sArr) = [(INDX_MIS, 7)] ∧
    errorsOf (varop 5 (.expr VarOp (.leaf IDNode 7)
        (fldSel (loc_str "length") .dummyNode)) 0 sArr) = [] := by
  have h := C7_array_access 0 sArr 7 7 1 1 TypeIdOp 0 .dummyNode
    (.leaf NUMNode 0) (.leaf NUMNode 0) (.leaf NUMNode 0) (fldSel 99 .dummyNode)
    (by decide) rfl (by decide) rfl rfl rfl rfl (by decide) (by decide) rfl
  exact ⟨h.1, h.2.2.2⟩

theorem NodeOp_leaf (k : Nat) (v : Int) : NodeOp (.leaf k v) = 0 := rfl

theorem LeftChild_leaf (k : Nat) (v : Int) : LeftChild (.leaf k v) = .dummyNode := rfl

theorem RightChild_leaf (k : Nat) (v : Int) : RightChild (.leaf k v) = .dummyNode := rfl

theorem SetLeftChild_leaf (k : Nat) (v : Int) (c : ILTree) :
    SetLeftChild (.leaf k v) c = .leaf k v := rfl

theorem SetRightChild_leaf (k : Nat) (v : Int) (c : ILTree) :
    SetRightChild (.leaf k v) c = .leaf k v := rfl

/-- A tree containing none of the operators the analyzer dispatches on
(`ClassDefOp`, `MethodOp`, `DeclOp`, `SpecOp`, `TypeIdOp`, `VarOp`,
`RoutineCallOp`): on such trees `MkST` only walks the structure. -/
def untouched : ILTree → Bool
  | .dummyNode => true
  | .leaf _ _ => true
  | .expr op l r =>
    decide (op ≠ ClassDefOp) && decide (op ≠ MethodOp) && decide (op ≠ DeclOp) &&
    decide (op ≠ SpecOp) && decide (op ≠ TypeIdOp) && decide (op ≠ VarOp) &&
    decide (op ≠ RoutineCallOp) && untouched l && untouched r

/-- Enough fuel for the plain structural walk of `MkST`. -/
def heightT : ILTree → Nat
  | .dummyNode => 1
  | .leaf _ _ => 2
  | .expr _ l r => 1 + max (heightT l) (heightT r)

theorem mkst_dummy (f : Nat) (s : STState) (hf : 1 ≤ f) :
    analyzeGo f (.mkST .dummyNode) s = .ok (.dummyNode, s) := by
  cases f with
  | zero => omega
  | succ f2 =>
    simp only [analyzeGo]
    rw [if_pos IsNull_dummy]

theorem mkst_untouched : ∀ (t : ILTree) (f : Nat) (s : STState),
    untouched t = true → heightT t ≤ f → analyzeGo f (.mkST t) s = .ok (t, s) := by
  intro t
  induction t with
  | dummyNode =>
    intro f s _ hh
    exact mkst_dummy f s (by simp [heightT] at hh; omega)
  | leaf k v =>
    intro f s _ hh
    cases f with
    | zero => simp [heightT] at hh
    | succ f2 =>
      have hf2 : 1 ≤ f2 := by simp [heightT] at hh; omega
      by_cases hk : IsNull (.leaf k v) = true
      · simp only [analyzeGo]
        rw [if_pos hk]
      · simp only [analyzeGo, NodeOp_leaf, LeftChild_leaf, RightChild_leaf]
        rw [if_neg hk]
        rw [if_neg (by decide), if_neg (by decide), if_neg (by decide),
          if_neg (by decide), if_neg (by decide), if_neg (by decide),
          if_neg (by decide)]
        rw [mkst_dummy f2 s hf2]
        simp only [SetLeftChild_leaf, RightChild_leaf]
        rw [mkst_dummy f2 s hf2]
        simp only [SetRightChild_leaf]
  | expr op l r ihl ihr =>
    intro f s hu hh
    cases f with
    | zero => simp [heightT] at hh
    | succ f2 =>
      simp only [untouched, Bool.and_eq_true, decide_eq_true_eq] at hu
      obtain ⟨⟨⟨⟨⟨⟨⟨⟨hn1, hn2⟩, hn3⟩, hn4⟩, hn5⟩, hn6⟩, hn7⟩, hul⟩, hur⟩ := hu
      have hhl : heightT l ≤ f2 := by simp [heightT] at hh; omega
      have hhr : heightT r ≤ f2 := by simp [heightT] at hh; omega
      simp only [analyzeGo, NodeOp_expr, LeftChild_expr]
      rw [if_neg (by simp [IsNull_expr])]
      rw [if_neg hn1, if_neg hn2, if_neg hn3, if_neg hn4, if_neg hn5,
        if_neg hn6, if_neg hn7]
      rw [ihl f2 s hul hhl]
      simp only [SetLeftChild_expr, RightChild_expr]
      rw [ihr f2 s hur hhr]
      simp only [SetRightChild_expr]

/-- Claim C1 (corrected): the analyzer is a fixed point only on trees it
does not touch. For every tree containing none of the operators `MkST`
dispatches on, with fuel at least the tree's height, `MkST` returns the
tree and state unchanged, and a second run on its own output does the
same — whereas on analyzed trees the `IdRef` leaves have been replaced by
symbol-table leaves whose payload a second run misreads as a name
(see the counterexample). -/
theorem C1_mkst_fixed (t : ILTree) (f : Nat) (s : STState)
    (hu : untouched t = true) (hh : heightT t ≤ f) :
    MkST f t s = .ok (t, s) ∧
    MkST f (treeOf (MkST f t s)) (stateOf s (MkST f t s)) = .ok (t, s) := by
  have h1 : MkST f t s = .ok (t, s) := mkst_untouched t f s hu hh
  refine ⟨h1, ?_⟩
  rw [h1]
  exact h1

/-- Witness for the corrected C1 on a small untouched tree. -/
theorem C1_mkst_fixed_witness :
    MkST 3 (.expr BodyOp (.leaf NUMNode 1) (.leaf NUMNode 2)) initState =
      .ok (.expr BodyOp (.leaf NUMNode 1) (.leaf NUMNode 2), initState) :=
  (C1_mkst_fixed (.expr BodyOp (.leaf NUMNode 1) (.leaf NUMNode 2)) 3 initState
    (by decide) (by decide)).1

/-- A state declaring symbol 1 (name 5, stack frame 1) as an integer
variable, and a `VarOp` tree referring to it by name. -/
def sVar : STState :=
  { initState with
      st := upd initState.st 1 1,
      attrarray := upd (upd (upd (upd initState.attrarray
          1 ⟨NAME_ATTR, .int 5, 2⟩)
          2 ⟨NEST_ATTR, .int 1, 3⟩)
          3 ⟨KIND_ATTR, .int VAR, 4⟩)
          4 ⟨TYPE_ATTR, .node (.expr TypeIdOp (.leaf INTEGERTNode 0) .dummyNode), 0⟩,
      stack := upd initState.stack 1 ⟨false, 5, 1, false, false⟩,
      st_top := 1,
      attr_top := 4,
      stack_top := 1,
      nesting := 1 }

def tVar : ILTree := .expr VarOp (.leaf IDNode 5) .dummyNode

/-- Counterexample to C1 as stated: the first analysis of `tVar` succeeds
with no diagnostics but replaces the `IDNode` leaf (so the run does
perform a node replacement), and a second run of the analyzer on its own
output reads the `STNode` payload 1 as a name, fails to resolve it and
reports `Undeclared` twice — the second call is not error-free. -/
theorem C1_cex :
    errorsOf (MkST 20 tVar sVar) = [] ∧
    treeOf (MkST 20 tVar sVar) ≠ tVar ∧
    errorsOf (MkST 20 (treeOf (MkST 20 tVar sVar))
        (stateOf sVar (MkST 20 tVar sVar))) =
      [(UNDECLARATION, 1), (UNDECLARATION, 1)] := by
  refine ⟨by decide, by decide, by decide⟩
